import Mathlib

/-!
Shallow embedding of the EDL parser (`ToolingExecutable/Edl/Parser.cpp`) of the
VbsEnclaveTooling repository, together with proofs about the properties stated in
its specification.

The parser source is embedded function-by-function.  The lexer and the small data
classes (`Token`, `EdlTypeInfo`, ...) are not part of the available source; they are
modelled from the spec where noted.  C++ loops become fuel-bounded recursion
(`ParseFailure.outOfFuel` is distinct from every analysis error); machine integers
become `Nat` (no claim depends on 64-bit wraparound); the iteration order of the
`std::unordered_map` of developer types, which C++ leaves unspecified, is exposed as
an explicit argument (`perm` / `visit`).
-/

namespace EdlProcessor

/-- Modelled from the spec: the `Token` class is not in the available source.  Per §3 a
token carries its raw text value; the classifier (identifier / unsigned-integer literal /
hexadecimal literal / punctuation / end-of-file) is determined by the text, per the
lexical grammar of §4.C.  Source line/column are dropped: no claim mentions them. -/
structure Token where
  text : String
deriving DecidableEq, Repr

/-- Modelled from the spec: `Token::IsEmpty` (a default-constructed token has empty text). -/
def Token.IsEmpty (t : Token) : Bool := t.text.isEmpty

/-- Modelled from the spec §4.C: identifiers are `[A-Za-z_][A-Za-z0-9_]*`. -/
def Token.IsIdentifier (t : Token) : Bool :=
  match t.text.data with
  | [] => false
  | c :: cs => (c.isAlpha || c == '_') && cs.all (fun d => d.isAlphanum || d == '_')

/-- Modelled from the spec §4.C: unsigned-integer literals are `[0-9]+`. -/
def Token.IsUnsignedInteger (t : Token) : Bool :=
  !t.text.isEmpty && t.text.data.all Char.isDigit

/-- Modelled from the spec §4.C: decimal value of an unsigned-integer literal token. -/
def TryParseDecimal (t : Token) : Option Nat :=
  if t.IsUnsignedInteger then
    some (t.text.data.foldl (fun a c => 10 * a + (c.toNat - 48)) 0)
  else none

def hexDigitVal (c : Char) : Option Nat :=
  if c.isDigit then some (c.toNat - 48)
  else if 'a' ≤ c && c ≤ 'f' then some (c.toNat - 87)
  else if 'A' ≤ c && c ≤ 'F' then some (c.toNat - 55)
  else none

/-- Modelled from the spec §4.C: hexadecimal literals are `0[xX][0-9A-Fa-f]+`. -/
def TryParseHexidecimal (t : Token) : Option Nat :=
  match t.text.data with
  | c0 :: c1 :: rest =>
    if c0 == '0' && (c1 == 'x' || c1 == 'X') && !rest.isEmpty
        && rest.all (fun c => (hexDigitVal c).isSome) then
      some (rest.foldl (fun a c => 16 * a + (hexDigitVal c).getD 0) 0)
    else none
  | _ => none

/-- End-of-file sentinel text: the single NUL character (spec §4.C). -/
def END_OF_FILE_TEXT : String := String.mk [Char.ofNat 0]

def eofToken : Token := ⟨END_OF_FILE_TEXT⟩

/-- The closed set of EDL type kinds (`EdlTypeKind` in `Structures.h`, listed in spec §3). -/
inductive EdlTypeKind
  | Void | Bool | Char | WChar
  | Int8 | Int16 | Int32 | Int64
  | UInt8 | UInt16 | UInt32 | UInt64
  | Float | Double | SizeT | UIntPtr
  | Vector | Struct | Enum | AnonymousEnum
deriving DecidableEq, Repr

/-- Modelled from the spec §4.B: the static `primitive_name → EdlTypeKind` table
(`c_string_to_edltype_map`), covering the primitive set plus `vector`.  The concrete
keyword spellings are those used throughout the spec's scenarios (§8). -/
def c_string_to_edltype_map (s : String) : Option EdlTypeKind :=
  if s = "void" then some .Void
  else if s = "bool" then some .Bool
  else if s = "char" then some .Char
  else if s = "wchar_t" then some .WChar
  else if s = "int8_t" then some .Int8
  else if s = "int16_t" then some .Int16
  else if s = "int32_t" then some .Int32
  else if s = "int64_t" then some .Int64
  else if s = "uint8_t" then some .UInt8
  else if s = "uint16_t" then some .UInt16
  else if s = "uint32_t" then some .UInt32
  else if s = "uint64_t" then some .UInt64
  else if s = "float" then some .Float
  else if s = "double" then some .Double
  else if s = "size_t" then some .SizeT
  else if s = "uintptr_t" then some .UIntPtr
  else if s = "vector" then some .Vector
  else none

/-- Modelled from the spec §4.E.2: the anonymous `enum` blocks merge into one logical type
"named by a fixed sentinel"; the sentinel constant itself is not in the available source. -/
def EDL_ANONYMOUS_ENUM_KEYWORD : String := "__anonymous_enum__"

/-- Inner element type of a `vector<T>` (one level only; nested vectors are rejected). -/
structure EdlTypeInfoInner where
  m_name : String
  m_type_kind : EdlTypeKind
deriving DecidableEq, Repr

/-- `EdlTypeInfo` of spec §3: name, kind, pointer flag, and the `Vector` element type. -/
structure EdlTypeInfo where
  m_name : String
  m_type_kind : EdlTypeKind
  is_pointer : Bool := false
  inner_type : Option EdlTypeInfoInner := none
deriving DecidableEq, Repr

/-- `ParsedAttributeInfo` of spec §3.  In C++ `m_size_info`/`m_count_info` are
default-constructed (empty-text) tokens until assigned; `IsEmpty` detects that. -/
structure ParsedAttributeInfo where
  m_in_present : Bool := false
  m_out_present : Bool := false
  m_in_and_out_present : Bool := false
  m_size_info : Token := ⟨""⟩
  m_count_info : Token := ⟨""⟩
deriving DecidableEq, Repr

def ParsedAttributeInfo.IsSizeOrCountPresent (i : ParsedAttributeInfo) : Bool :=
  !i.m_size_info.IsEmpty || !i.m_count_info.IsEmpty

inductive DeclarationParentKind
  | Function | Struct
deriving DecidableEq, Repr

/-- `Declaration` of spec §3. Array dimensions are stored as the raw token texts
(`dimensions.push_back(array_value_token.ToString())` in `ParseArrayDimensions`). -/
structure Declaration where
  m_parent_kind : DeclarationParentKind
  m_name : String := ""
  m_edl_type_info : EdlTypeInfo := { m_name := "", m_type_kind := .Void }
  m_attribute_info : Option ParsedAttributeInfo := none
  m_array_dimensions : List String := []
deriving DecidableEq, Repr

def Declaration.HasPointer (d : Declaration) : Bool := d.m_edl_type_info.is_pointer

def Declaration.IsEdlType (d : Declaration) (k : EdlTypeKind) : Bool :=
  d.m_edl_type_info.m_type_kind == k

def Declaration.IsContainerType (d : Declaration) : Bool :=
  d.IsEdlType EdlTypeKind.Vector

/-- `EnumType` (the spec's `EnumMember`, §3).  The parser constructs it as
`EnumType(value_name, cur_enum_value_position)` and then assigns the remaining fields. -/
structure EnumType where
  m_name : String
  m_position : Nat
  m_declared_position : Option Nat := none
  m_value : Option Token := none
  m_is_hex : Bool := false
  m_is_default_value : Bool := false
deriving DecidableEq, Repr

/-- `DeveloperType` of spec §3.  `m_items` is modelled as an insertion-ordered association
list (the container class is not in the available source; the parser only uses key
membership and keyed insertion, which are order-independent). -/
structure DeveloperType where
  m_name : String
  m_type_kind : EdlTypeKind
  m_fields : List Declaration := []
  m_items : List (String × EnumType) := []
  m_contains_inner_pointer : Bool := false
  m_contains_container_type : Bool := false
deriving DecidableEq, Repr

def itemsContains (items : List (String × EnumType)) (n : String) : Bool :=
  items.any (fun p => p.1 == n)

/-- `Function` of spec §3. -/
structure Function where
  m_name : String := ""
  abi_m_name : String := ""
  m_return_info : Declaration := { m_parent_kind := .Function }
  m_parameters : List Declaration := []
deriving DecidableEq, Repr

/-- Modelled from the spec §4.E rule 10: the member function body is not in the available
source; the signature is `name + "(" + type1 + "," + type2 + … + ")"`. -/
def Function.GetDeclarationSignature (f : Function) : String :=
  f.m_name ++ "(" ++
    String.intercalate "," (f.m_parameters.map (fun p => p.m_edl_type_info.m_name)) ++ ")"

/-- The module IR (`Edl`), aggregate-initialized at the end of `ParseBody`.
`m_developer_types` is the name-keyed map, modelled as an association list. -/
structure Edl where
  m_name : String
  m_developer_types : List (String × DeveloperType)
  m_developer_types_insertion_order_list : List DeveloperType
  m_trusted_functions_map : List (String × Function)
  m_trusted_functions_list : List Function
  m_untrusted_functions_map : List (String × Function)
  m_untrusted_functions_list : List Function
deriving DecidableEq, Repr

/-- The closed error taxonomy (spec §7 / `ErrorId` in the source). -/
inductive ErrorId
  | EdlExpectedTokenNotFound | EdlUnexpectedToken | EdlDuplicateTypeDefinition
  | EdlTypeNameIdentifierIsReserved | EdlDuplicateFieldOrParameter
  | EdlEnumNameIdentifierNotFound | EdlEnumValueIdentifierNotFound | EdlEnumValueNotFound
  | EdlEnumNameDuplicated | EdlStructIdentifierNotFound | EdlIdentifierNameNotFound
  | EdlInvalidAttribute | EdlDuplicateAttributeFound | EdlNonSizeOrCountAttributeInStruct
  | EdlSizeOrCountValueInvalid | EdlSizeAndCountNotValidForNonPointer
  | EdlSizeOrCountAttributeNotFound | EdlSizeOrCountForArrayNotValid | EdlSizeOrCountInvalidType
  | EdlPointerToVoidMustBeAnnotated | EdlPointerToPointerInvalid | EdlPointerToArrayNotAllowed
  | EdlReturnValuesCannotBePointers | EdlOnlySingleDimensionsSupported
  | EdlArrayDimensionIdentifierInvalid | EdlFunctionIdentifierNotFound
  | EdlDuplicateFunctionDeclaration | EdlVectorDoesNotStartWithArrowBracket
  | EdlVectorNameIdentifierNotFound | EdlTypeInVectorMustBePreviouslyDefined
  | EdlDeveloperTypesMustBeDefinedBeforeUse
deriving DecidableEq, Repr

/-- Result discriminant of the embedded parser: an analysis error (a thrown
`EdlAnalysisException`), or exhaustion of the recursion fuel that replaces the C++
`while` loops (never produced by the C++ code itself). -/
inductive ParseFailure
  | outOfFuel
  | analysis : ErrorId → ParseFailure
deriving DecidableEq, Repr

/-- `GetCurrentTokenAndMoveToNextToken`: the lexer yields the EOF sentinel repeatedly
once the stream is exhausted (spec §4.C). -/
def getTok : List Token → Token × List Token
  | [] => (eofToken, [])
  | t :: ts => (t, ts)

/-- `PeekAtCurrentToken`. -/
def peekTok (ts : List Token) : Token := (getTok ts).1

/-- `ThrowIfExpectedTokenNotNext`. -/
def expectToken (expected : String) (ts : List Token) : Except ParseFailure (List Token) :=
  let t := (getTok ts).1
  if t.text == expected then .ok (getTok ts).2
  else .error (.analysis .EdlExpectedTokenNotFound)

inductive AttributeKind
  | In | Out | Count | Size
deriving DecidableEq, Repr

/-- `EdlParser::CheckAttributeIsValid`. -/
def CheckAttributeIsValid (t : Token) : Except ParseFailure AttributeKind :=
  if t.text == "in" then .ok .In
  else if t.text == "out" then .ok .Out
  else if t.text == "count" then .ok .Count
  else if t.text == "size" then .ok .Size
  else .error (.analysis .EdlInvalidAttribute)

/-- The `while (PeekAtCurrentToken() != RIGHT_SQUARE_BRACKET)` loop of
`EdlParser::ParseAttributes` (the closing `]` is consumed by the caller). -/
def parseAttributesLoop (parent : DeclarationParentKind)
    (pairs : List (AttributeKind × Token)) (info : ParsedAttributeInfo)
    (ts : List Token) : Nat → Except ParseFailure (ParsedAttributeInfo × List Token)
  | 0 => .error .outOfFuel
  | fuel+1 =>
    if (peekTok ts).text == "]" then .ok (info, ts)
    else
      let token := (getTok ts).1
      let ts := (getTok ts).2
      match CheckAttributeIsValid token with
      | .error e => .error e
      | .ok attrKind =>
        let isParsingStruct := parent == DeclarationParentKind.Struct
        let isAttributesizeOrCount :=
          attrKind == AttributeKind.Count || attrKind == AttributeKind.Size
        if isParsingStruct && !isAttributesizeOrCount then
          .error (.analysis .EdlNonSizeOrCountAttributeInStruct)
        else if pairs.any (fun p => p.1 == attrKind) then
          .error (.analysis .EdlDuplicateAttributeFound)
        else
          let pairs := pairs ++ [(attrKind, token)]
          let step : Except ParseFailure (ParsedAttributeInfo × List Token) :=
            if isAttributesizeOrCount then
              match expectToken "=" ts with
              | .error e => .error e
              | .ok ts =>
                let attribute_value := (getTok ts).1
                let ts := (getTok ts).2
                if !attribute_value.IsIdentifier && !attribute_value.IsUnsignedInteger then
                  .error (.analysis .EdlSizeOrCountValueInvalid)
                else if attrKind == AttributeKind.Size then
                  .ok ({ info with m_size_info := attribute_value }, ts)
                else
                  .ok ({ info with m_count_info := attribute_value }, ts)
            else if attrKind == AttributeKind.In then
              .ok ({ info with m_in_present := true }, ts)
            else if attrKind == AttributeKind.Out then
              .ok ({ info with m_out_present := true }, ts)
            else
              .ok (info, ts)
          match step with
          | .error e => .error e
          | .ok (info, ts) =>
            let info :=
              { info with m_in_and_out_present := info.m_in_present && info.m_out_present }
            if (peekTok ts).text == "]" then
              parseAttributesLoop parent pairs info ts fuel
            else
              match expectToken "," ts with
              | .error e => .error e
              | .ok ts => parseAttributesLoop parent pairs info ts fuel

/-- `EdlParser::ParseAttributes`. -/
def ParseAttributes (parent : DeclarationParentKind) (ts : List Token) (fuel : Nat) :
    Except ParseFailure (Option ParsedAttributeInfo × List Token) :=
  if (peekTok ts).text == "[" then
    let ts := (getTok ts).2
    match parseAttributesLoop parent [] ({}) ts fuel with
    | .error e => .error e
    | .ok (info, ts) =>
      match expectToken "]" ts with
      | .error e => .error e
      | .ok ts => .ok (some info, ts)
  else .ok (none, ts)

/-- The `while (PeekAtCurrentToken() == LEFT_ARROW_BRACKET)` loop of `EdlParser::ParseVector`. -/
def parseVectorLoop (types : List (String × DeveloperType)) (vinfo : EdlTypeInfo)
    (ts : List Token) : Nat → Except ParseFailure (EdlTypeInfo × List Token)
  | 0 => .error .outOfFuel
  | fuel+1 =>
    if (peekTok ts).text == "<" then
      let ts := (getTok ts).2
      let vector_value_token := (getTok ts).1
      let ts := (getTok ts).2
      if !vector_value_token.IsIdentifier then
        .error (.analysis .EdlVectorNameIdentifierNotFound)
      else
        let token_name := vector_value_token.text
        match c_string_to_edltype_map token_name with
        | some edl_type =>
          if edl_type == EdlTypeKind.Vector then
            .error (.analysis .EdlOnlySingleDimensionsSupported)
          else
            match expectToken ">" ts with
            | .error e => .error e
            | .ok ts =>
              parseVectorLoop types
                ({ vinfo with inner_type := some ⟨token_name, edl_type⟩ }) ts fuel
        | none =>
          match List.lookup token_name types with
          | some dev_type =>
            match expectToken ">" ts with
            | .error e => .error e
            | .ok ts =>
              parseVectorLoop types
                ({ vinfo with inner_type := some ⟨dev_type.m_name, dev_type.m_type_kind⟩ }) ts fuel
          | none => .error (.analysis .EdlTypeInVectorMustBePreviouslyDefined)
    else .ok (vinfo, ts)

/-- `EdlParser::ParseVector`. -/
def ParseVector (types : List (String × DeveloperType)) (ts : List Token) (fuel : Nat) :
    Except ParseFailure (EdlTypeInfo × List Token) :=
  if (peekTok ts).text == "<" then
    parseVectorLoop types ({ m_name := "vector", m_type_kind := .Vector }) ts fuel
  else .error (.analysis .EdlVectorDoesNotStartWithArrowBracket)

/-- `EdlParser::ParseDeclarationTypeInfo`. -/
def ParseDeclarationTypeInfo (types : List (String × DeveloperType)) (ts : List Token)
    (fuel : Nat) : Except ParseFailure (EdlTypeInfo × List Token) :=
  let type_token := (getTok ts).1
  let ts := (getTok ts).2
  if !type_token.IsIdentifier then .error (.analysis .EdlIdentifierNameNotFound)
  else
    let type_name := type_token.text
    let base : Except ParseFailure (EdlTypeInfo × List Token) :=
      match c_string_to_edltype_map type_name with
      | some type_kind =>
        if type_kind == EdlTypeKind.Vector then ParseVector types ts fuel
        else .ok ({ m_name := type_name, m_type_kind := type_kind }, ts)
      | none =>
        match List.lookup type_name types with
        | some developer_type =>
          .ok ({ m_name := type_name, m_type_kind := developer_type.m_type_kind }, ts)
        | none => .error (.analysis .EdlDeveloperTypesMustBeDefinedBeforeUse)
    match base with
    | .error e => .error e
    | .ok (type_info, ts) =>
      if (peekTok ts).text == "*" then
        let ts := (getTok ts).2
        if (peekTok ts).text == "*" then .error (.analysis .EdlPointerToPointerInvalid)
        else .ok ({ type_info with is_pointer := true }, ts)
      else .ok (type_info, ts)

/-- The dimension loop of `EdlParser::ParseArrayDimensions`. -/
def parseArrayDimensionsLoop (types : List (String × DeveloperType)) (dims : List String)
    (dimensions_found : Nat) (ts : List Token) :
    Nat → Except ParseFailure (List String × List Token)
  | 0 => .error .outOfFuel
  | fuel+1 =>
    if (peekTok ts).text == "[" then
      if dimensions_found ≥ 1 then .error (.analysis .EdlOnlySingleDimensionsSupported)
      else
        let ts := (getTok ts).2
        let array_value_token := (getTok ts).1
        let ts := (getTok ts).2
        let token_name := array_value_token.text
        let is_integer := array_value_token.IsUnsignedInteger
        let is_valid_identifier :=
          array_value_token.IsIdentifier &&
            (match List.lookup EDL_ANONYMOUS_ENUM_KEYWORD types with
             | some ty => itemsContains ty.m_items token_name
             | none => false)
        if !is_integer && !is_valid_identifier then
          .error (.analysis .EdlArrayDimensionIdentifierInvalid)
        else
          match expectToken "]" ts with
          | .error e => .error e
          | .ok ts =>
            parseArrayDimensionsLoop types (dims ++ [token_name]) (dimensions_found + 1) ts fuel
    else .ok (dims, ts)

/-- `EdlParser::ParseArrayDimensions`. -/
def ParseArrayDimensions (types : List (String × DeveloperType)) (ts : List Token)
    (fuel : Nat) : Except ParseFailure (List String × List Token) :=
  parseArrayDimensionsLoop types [] 0 ts fuel

/-- `EdlParser::ValidatePointers`. -/
def ValidatePointers (declaration : Declaration) : Except ParseFailure Unit :=
  if !declaration.HasPointer then .ok ()
  else if declaration.m_edl_type_info.m_type_kind == EdlTypeKind.Void then
    .error (.analysis .EdlPointerToVoidMustBeAnnotated)
  else
    match declaration.m_attribute_info with
    | none => .ok ()
    | some attribute_info =>
      let in_or_out_present := attribute_info.m_in_present || attribute_info.m_out_present
      if declaration.m_parent_kind == DeclarationParentKind.Function then
        if in_or_out_present && !declaration.m_array_dimensions.isEmpty then
          .error (.analysis .EdlPointerToArrayNotAllowed)
        else if in_or_out_present && declaration.IsEdlType EdlTypeKind.Vector then
          .error (.analysis .EdlPointerToArrayNotAllowed)
        else .ok ()
      else .ok ()

/-- `EdlParser::ValidateNonSizeAndCountAttributes`. -/
def ValidateNonSizeAndCountAttributes (declaration : Declaration) : Except ParseFailure Unit :=
  match declaration.m_attribute_info with
  | none => .ok ()
  | some info =>
    if info.IsSizeOrCountPresent && !declaration.HasPointer then
      .error (.analysis .EdlSizeAndCountNotValidForNonPointer)
    else .ok ()

/-- `EdlParser::ParseDeclaration`. -/
def ParseDeclaration (parent_kind : DeclarationParentKind)
    (types : List (String × DeveloperType)) (ts : List Token) (fuel : Nat) :
    Except ParseFailure (Declaration × List Token) :=
  match ParseAttributes parent_kind ts fuel with
  | .error e => .error e
  | .ok (attrOpt, ts) =>
    match ParseDeclarationTypeInfo types ts fuel with
    | .error e => .error e
    | .ok (tinfo, ts) =>
      let declaration_name_token := (getTok ts).1
      let ts := (getTok ts).2
      if !declaration_name_token.IsIdentifier then
        .error (.analysis .EdlIdentifierNameNotFound)
      else if (c_string_to_edltype_map declaration_name_token.text).isSome then
        .error (.analysis .EdlTypeNameIdentifierIsReserved)
      else
        match ParseArrayDimensions types ts fuel with
        | .error e => .error e
        | .ok (dims, ts) =>
          let declaration : Declaration :=
            { m_parent_kind := parent_kind
              m_name := declaration_name_token.text
              m_edl_type_info := tinfo
              m_attribute_info := attrOpt
              m_array_dimensions := dims }
          match ValidateNonSizeAndCountAttributes declaration with
          | .error e => .error e
          | .ok _ => .ok (declaration, ts)

/-- The loop of `EdlParser::ParseThroughFieldsOrParameterList`. -/
def parseFieldsLoop (parent_kind : DeclarationParentKind)
    (types : List (String × DeveloperType)) (acc : List Declaration)
    (param_names : List String) (list_ending : String) (sep : String)
    (ts : List Token) : Nat → Except ParseFailure (List Declaration × List Token)
  | 0 => .error .outOfFuel
  | fuel+1 =>
    if (peekTok ts).text == list_ending then .ok (acc, ts)
    else
      match ParseDeclaration parent_kind types ts fuel with
      | .error e => .error e
      | .ok (declaration, ts) =>
        let declaration :=
          if parent_kind == DeclarationParentKind.Function
              && declaration.m_attribute_info.isNone then
            { declaration with m_attribute_info := some { m_in_present := true } }
          else declaration
        match ValidatePointers declaration with
        | .error e => .error e
        | .ok _ =>
          if param_names.contains declaration.m_name then
            .error (.analysis .EdlDuplicateFieldOrParameter)
          else
            let acc := acc ++ [declaration]
            let param_names := param_names ++ [declaration.m_name]
            if (peekTok ts).text == list_ending then
              parseFieldsLoop parent_kind types acc param_names list_ending sep ts fuel
            else
              match expectToken sep ts with
              | .error e => .error e
              | .ok ts => parseFieldsLoop parent_kind types acc param_names list_ending sep ts fuel

/-- Parser state: the member fields of `EdlParser` that the parse mutates. -/
structure ParserState where
  m_developer_types : List (String × DeveloperType) := []
  m_developer_types_insertion_order_list : List DeveloperType := []
  m_trusted_functions_map : List (String × Function) := []
  m_trusted_functions_list : List Function := []
  m_untrusted_functions_map : List (String × Function) := []
  m_untrusted_functions_list : List Function := []
  m_abi_function_index : Nat := 0
deriving DecidableEq, Repr

/-- Keyed insert-or-assign, preserving the position of an existing key: models
`m_developer_types[key] = value` and in-place mutation of a map entry. -/
def setType (l : List (String × DeveloperType)) (k : String) (v : DeveloperType) :
    List (String × DeveloperType) :=
  match l with
  | [] => [(k, v)]
  | (k0, v0) :: rest => if k0 == k then (k, v) :: rest else (k0, v0) :: setType rest k v

/-- `EdlParser::AddDeveloperType`: insert into the map and push a copy onto the
insertion-order list. -/
def AddDeveloperType (st : ParserState) (new_type : DeveloperType) : ParserState :=
  { st with
    m_developer_types := st.m_developer_types ++ [(new_type.m_name, new_type)]
    m_developer_types_insertion_order_list :=
      st.m_developer_types_insertion_order_list ++ [new_type] }

/-- The member loop of `EdlParser::ParseEnum` (lines 260–347): `items` starts from the
map entry's current items, so duplicates across anonymous blocks are detected. -/
def parseEnumItemsLoop (is_anonymous : Bool) (items : List (String × EnumType))
    (cur_enum_value_position : Nat) (was_previous_value_hex : Bool)
    (is_default_value : Bool) (ts : List Token) :
    Nat → Except ParseFailure (List (String × EnumType) × List Token)
  | 0 => .error .outOfFuel
  | fuel+1 =>
    if (peekTok ts).text == "\x7d" then .ok (items, ts)
    else
      let enum_value_identifier := (getTok ts).1
      let ts := (getTok ts).2
      let value_name := enum_value_identifier.text
      if !is_anonymous && !enum_value_identifier.IsIdentifier then
        .error (.analysis .EdlEnumValueIdentifierNotFound)
      else
        let enum_type : EnumType :=
          { m_name := value_name
            m_position := cur_enum_value_position
            m_is_hex := was_previous_value_hex
            m_is_default_value := is_default_value }
        let step : Except ParseFailure (EnumType × Nat × Bool × List Token) :=
          if (peekTok ts).text == "=" then
            let ts := (getTok ts).2
            let enum_value_token := (getTok ts).1
            let ts := (getTok ts).2
            match TryParseDecimal enum_value_token with
            | some decimal_value =>
              .ok ({ enum_type with
                      m_declared_position := some decimal_value
                      m_is_hex := false
                      m_value := some enum_value_token },
                   decimal_value, false, ts)
            | none =>
              match TryParseHexidecimal enum_value_token with
              | some hex_value =>
                .ok ({ enum_type with
                        m_declared_position := some hex_value
                        m_is_hex := true
                        m_value := some enum_value_token },
                     hex_value, true, ts)
              | none => .error (.analysis .EdlEnumValueNotFound)
          else .ok (enum_type, cur_enum_value_position, was_previous_value_hex, ts)
        match step with
        | .error e => .error e
        | .ok (enum_type, cur_pos, was_hex, ts) =>
          let commaCheck : Except ParseFailure (List Token) :=
            if (peekTok ts).text == "\x7d" then .ok ts else expectToken "," ts
          match commaCheck with
          | .error e => .error e
          | .ok ts =>
            if itemsContains items value_name then
              .error (.analysis .EdlEnumNameDuplicated)
            else
              parseEnumItemsLoop is_anonymous (items ++ [(value_name, enum_type)])
                (cur_pos + 1) was_hex false ts fuel

/-- `EdlParser::ParseEnum`. -/
def ParseEnum (st : ParserState) (ts : List Token) (fuel : Nat) :
    Except ParseFailure (ParserState × List Token) :=
  let enum_identifier_token := (getTok ts).1
  let ts := (getTok ts).2
  let is_anonymous_enum := enum_identifier_token.text == "\x7b"
  let setup : Except ParseFailure (String × ParserState × List Token) :=
    if is_anonymous_enum then
      let type_name := EDL_ANONYMOUS_ENUM_KEYWORD
      if (List.lookup type_name st.m_developer_types).isSome then .ok (type_name, st, ts)
      else
        let newMap :=
          setType st.m_developer_types type_name
            ({ m_name := type_name, m_type_kind := .AnonymousEnum })
        .ok (type_name, { st with m_developer_types := newMap }, ts)
    else
      let type_name := enum_identifier_token.text
      if !enum_identifier_token.IsIdentifier then
        .error (.analysis .EdlEnumNameIdentifierNotFound)
      else if (c_string_to_edltype_map type_name).isSome then
        .error (.analysis .EdlTypeNameIdentifierIsReserved)
      else if (List.lookup type_name st.m_developer_types).isSome then
        .error (.analysis .EdlDuplicateTypeDefinition)
      else
        let newMap :=
          setType st.m_developer_types type_name
            ({ m_name := type_name, m_type_kind := .Enum })
        let st := { st with m_developer_types := newMap }
        -- move past the starting '{' token (consumed without checking, as in the source)
        let ts := (getTok ts).2
        .ok (type_name, st, ts)
  match setup with
  | .error e => .error e
  | .ok (type_name, st, ts) =>
    let current_items :=
      match List.lookup type_name st.m_developer_types with
      | some t => t.m_items
      | none => []
    match parseEnumItemsLoop is_anonymous_enum current_items 0 false true ts fuel with
    | .error e => .error e
    | .ok (items, ts) =>
      match expectToken "\x7d" ts with
      | .error e => .error e
      | .ok ts =>
        match expectToken ";" ts with
        | .error e => .error e
        | .ok ts =>
          let updated : DeveloperType :=
            match List.lookup type_name st.m_developer_types with
            | some t => { t with m_items := items }
            | none => { m_name := type_name, m_type_kind := .AnonymousEnum, m_items := items }
          .ok ({ st with
                  m_developer_types := setType st.m_developer_types type_name updated
                  m_developer_types_insertion_order_list :=
                    st.m_developer_types_insertion_order_list ++ [updated] }, ts)

/-- `EdlParser::ParseStruct`. -/
def ParseStruct (st : ParserState) (ts : List Token) (fuel : Nat) :
    Except ParseFailure (ParserState × List Token) :=
  let struct_name_identifier := (getTok ts).1
  let ts := (getTok ts).2
  if !struct_name_identifier.IsIdentifier then .error (.analysis .EdlStructIdentifierNotFound)
  else
    let name := struct_name_identifier.text
    if (c_string_to_edltype_map name).isSome then
      .error (.analysis .EdlTypeNameIdentifierIsReserved)
    else if (List.lookup name st.m_developer_types).isSome then
      .error (.analysis .EdlDuplicateTypeDefinition)
    else
      match expectToken "\x7b" ts with
      | .error e => .error e
      | .ok ts =>
        match parseFieldsLoop DeclarationParentKind.Struct st.m_developer_types [] [] "\x7d" ";"
            ts fuel with
        | .error e => .error e
        | .ok (fields, ts) =>
          let new_struct_type : DeveloperType :=
            { m_name := name
              m_type_kind := .Struct
              m_fields := fields
              m_contains_inner_pointer := fields.any (fun f => f.HasPointer)
              m_contains_container_type := fields.any (fun f => f.IsContainerType) }
          match expectToken "\x7d" ts with
          | .error e => .error e
          | .ok ts =>
            match expectToken ";" ts with
            | .error e => .error e
            | .ok ts => .ok (AddDeveloperType st new_struct_type, ts)

/-- `EdlParser::ParseFunctionDeclaration`. -/
def ParseFunctionDeclaration (types : List (String × DeveloperType)) (ts : List Token)
    (fuel : Nat) : Except ParseFailure (Function × List Token) :=
  match ParseDeclarationTypeInfo types ts fuel with
  | .error e => .error e
  | .ok (ret_type, ts) =>
    let return_info : Declaration :=
      { m_parent_kind := .Function
        m_name := "_return_value_"
        m_edl_type_info := ret_type
        m_attribute_info := some
          { m_out_present := true, m_in_present := false, m_in_and_out_present := false } }
    let function_name_token := (getTok ts).1
    let ts := (getTok ts).2
    if !function_name_token.IsIdentifier then
      .error (.analysis .EdlFunctionIdentifierNotFound)
    else
      let fname := function_name_token.text
      if ret_type.is_pointer then .error (.analysis .EdlReturnValuesCannotBePointers)
      else if (c_string_to_edltype_map fname).isSome then
        .error (.analysis .EdlTypeNameIdentifierIsReserved)
      else
        match expectToken "(" ts with
        | .error e => .error e
        | .ok ts =>
          match parseFieldsLoop DeclarationParentKind.Function types [] [] ")" "," ts fuel with
          | .error e => .error e
          | .ok (parameters, ts) =>
            match expectToken ")" ts with
            | .error e => .error e
            | .ok ts =>
              match expectToken ";" ts with
              | .error e => .error e
              | .ok ts =>
                .ok ({ m_name := fname
                       abi_m_name := ""
                       m_return_info := return_info
                       m_parameters := parameters }, ts)

inductive FunctionKind
  | Trusted | Untrusted
deriving DecidableEq, Repr

/-- The function loop of `EdlParser::ParseFunctions`: duplicate-signature check, then
ABI name assignment from the shared `m_abi_function_index` counter. -/
def parseFunctionsLoop (function_kind : FunctionKind) (st : ParserState) (ts : List Token) :
    Nat → Except ParseFailure (ParserState × List Token)
  | 0 => .error .outOfFuel
  | fuel+1 =>
    if (peekTok ts).text == "\x7d" then .ok (st, ts)
    else
      match ParseFunctionDeclaration st.m_developer_types ts fuel with
      | .error e => .error e
      | .ok (parsed_function, ts) =>
        let function_signature := parsed_function.GetDeclarationSignature
        let func_map :=
          if function_kind == FunctionKind.Untrusted then st.m_untrusted_functions_map
          else st.m_trusted_functions_map
        if (List.lookup function_signature func_map).isSome then
          .error (.analysis .EdlDuplicateFunctionDeclaration)
        else
          let parsed_function :=
            { parsed_function with
              abi_m_name := parsed_function.m_name ++ "_" ++ Nat.repr st.m_abi_function_index }
          let st :=
            if function_kind == FunctionKind.Untrusted then
              { st with
                m_untrusted_functions_map :=
                  st.m_untrusted_functions_map ++ [(function_signature, parsed_function)]
                m_untrusted_functions_list := st.m_untrusted_functions_list ++ [parsed_function]
                m_abi_function_index := st.m_abi_function_index + 1 }
            else
              { st with
                m_trusted_functions_map :=
                  st.m_trusted_functions_map ++ [(function_signature, parsed_function)]
                m_trusted_functions_list := st.m_trusted_functions_list ++ [parsed_function]
                m_abi_function_index := st.m_abi_function_index + 1 }
          parseFunctionsLoop function_kind st ts fuel

/-- `EdlParser::ParseFunctions`. -/
def ParseFunctions (function_kind : FunctionKind) (st : ParserState) (ts : List Token)
    (fuel : Nat) : Except ParseFailure (ParserState × List Token) :=
  match expectToken "\x7b" ts with
  | .error e => .error e
  | .ok ts =>
    match parseFunctionsLoop function_kind st ts fuel with
    | .error e => .error e
    | .ok (st, ts) =>
      match expectToken "\x7d" ts with
      | .error e => .error e
      | .ok ts =>
        match expectToken ";" ts with
        | .error e => .error e
        | .ok ts => .ok (st, ts)

/-- `GetSizeOrCountAttributeTokens` (file-static, lines 911–930).  Note: the count
branch pushes `m_size_info`, exactly as the source does. -/
def GetSizeOrCountAttributeTokens (declaration : Declaration) : List Token :=
  match declaration.m_attribute_info with
  | none => []
  | some info =>
    (if !info.m_size_info.IsEmpty then [info.m_size_info] else []) ++
      (if !info.m_count_info.IsEmpty then [info.m_size_info] else [])

/-- `FindDeclaration` (file-static). -/
def FindDeclaration (declarations : List Declaration) (name : String) : Option Declaration :=
  declarations.find? (fun d => d.m_name == name)

/-- One token check of `EdlParser::ValidateSizeAndCountAttributeDeclarations`. -/
def validateSizeCountToken (types : List (String × DeveloperType))
    (declarations : List Declaration) (token : Token) : Except ParseFailure Unit :=
  if !token.IsIdentifier then .ok ()
  else
    let identifier_in_anonymous_enum :=
      match List.lookup EDL_ANONYMOUS_ENUM_KEYWORD types with
      | some ty => itemsContains ty.m_items token.text
      | none => false
    if identifier_in_anonymous_enum then .ok ()
    else
      match FindDeclaration declarations token.text with
      | none => .error (.analysis .EdlSizeOrCountAttributeNotFound)
      | some found =>
        if !found.m_array_dimensions.isEmpty then
          .error (.analysis .EdlSizeOrCountForArrayNotValid)
        else
          match found.m_edl_type_info.m_type_kind with
          | .UInt8 => .ok ()
          | .UInt16 => .ok ()
          | .UInt32 => .ok ()
          | .UInt64 => .ok ()
          | .SizeT => .ok ()
          | _ => .error (.analysis .EdlSizeOrCountInvalidType)

def validateTokensList (types : List (String × DeveloperType))
    (declarations : List Declaration) : List Token → Except ParseFailure Unit
  | [] => .ok ()
  | t :: rest =>
    match validateSizeCountToken types declarations t with
    | .error e => .error e
    | .ok _ => validateTokensList types declarations rest

def validateDeclsList (types : List (String × DeveloperType))
    (declarations : List Declaration) : List Declaration → Except ParseFailure Unit
  | [] => .ok ()
  | d :: rest =>
    match validateTokensList types declarations (GetSizeOrCountAttributeTokens d) with
    | .error e => .error e
    | .ok _ => validateDeclsList types declarations rest

/-- `EdlParser::ValidateSizeAndCountAttributeDeclarations`. -/
def ValidateSizeAndCountAttributeDeclarations (types : List (String × DeveloperType))
    (declarations : List Declaration) : Except ParseFailure Unit :=
  validateDeclsList types declarations declarations

def validateFunctionList (types : List (String × DeveloperType)) :
    List (String × Function) → Except ParseFailure Unit
  | [] => .ok ()
  | (_, f) :: rest =>
    match ValidateSizeAndCountAttributeDeclarations types f.m_parameters with
    | .error e => .error e
    | .ok _ => validateFunctionList types rest

def validateTypeFieldsList (types : List (String × DeveloperType)) :
    List (String × DeveloperType) → Except ParseFailure Unit
  | [] => .ok ()
  | (_, t) :: rest =>
    match ValidateSizeAndCountAttributeDeclarations types t.m_fields with
    | .error e => .error e
    | .ok _ => validateTypeFieldsList types rest

/-- `EdlParser::PerformFinalValidations`. -/
def PerformFinalValidations (st : ParserState) : Except ParseFailure Unit :=
  match validateFunctionList st.m_developer_types st.m_trusted_functions_map with
  | .error e => .error e
  | .ok _ =>
    match validateFunctionList st.m_developer_types st.m_untrusted_functions_map with
    | .error e => .error e
    | .ok _ => validateTypeFieldsList st.m_developer_types st.m_developer_types

/-- The inner field loop of `EdlParser::UpdateDeveloperTypeMetadata`, with its early
`break` once both flags are set. -/
def updateTypeFieldsLoop (types : List (String × DeveloperType)) (cip cct : Bool) :
    List Declaration → Bool × Bool
  | [] => (cip, cct)
  | field :: rest =>
    if cip && cct then (cip, cct)
    else if !(field.IsEdlType EdlTypeKind.Struct) then updateTypeFieldsLoop types cip cct rest
    else
      match List.lookup field.m_edl_type_info.m_name types with
      | some struct_field =>
        updateTypeFieldsLoop types (cip || struct_field.m_contains_inner_pointer)
          (cct || struct_field.m_contains_container_type) rest
      | none => updateTypeFieldsLoop types cip cct rest

/-- Processing of one developer type in `UpdateDeveloperTypeMetadata` (reads the current
map, then updates the entry in place). -/
def updateOneDeveloperType (types : List (String × DeveloperType)) (name : String) :
    List (String × DeveloperType) :=
  match List.lookup name types with
  | none => types
  | some t =>
    let flags :=
      updateTypeFieldsLoop types t.m_contains_inner_pointer t.m_contains_container_type
        t.m_fields
    setType types name
      { t with m_contains_inner_pointer := flags.1, m_contains_container_type := flags.2 }

/-- `EdlParser::UpdateDeveloperTypeMetadata`.  `visit` is the iteration order of the
`std::unordered_map`, which C++ leaves unspecified; it is a permutation of the keys. -/
def UpdateDeveloperTypeMetadata (visit : List String)
    (types : List (String × DeveloperType)) : List (String × DeveloperType) :=
  visit.foldl updateOneDeveloperType types

/-- The `while` loop of `EdlParser::ParseBody`. -/
def parseBodyLoop (st : ParserState) (ts : List Token) :
    Nat → Except ParseFailure (ParserState × List Token)
  | 0 => .error .outOfFuel
  | fuel+1 =>
    if (peekTok ts).text == "\x7d" || (peekTok ts).text == END_OF_FILE_TEXT then .ok (st, ts)
    else
      let token := (getTok ts).1
      let ts := (getTok ts).2
      if token.text == "trusted" then
        match ParseFunctions FunctionKind.Trusted st ts fuel with
        | .error e => .error e
        | .ok (st, ts) => parseBodyLoop st ts fuel
      else if token.text == "untrusted" then
        match ParseFunctions FunctionKind.Untrusted st ts fuel with
        | .error e => .error e
        | .ok (st, ts) => parseBodyLoop st ts fuel
      else if token.text == "enum" then
        match ParseEnum st ts fuel with
        | .error e => .error e
        | .ok (st, ts) => parseBodyLoop st ts fuel
      else if token.text == "struct" then
        match ParseStruct st ts fuel with
        | .error e => .error e
        | .ok (st, ts) => parseBodyLoop st ts fuel
      else .error (.analysis .EdlUnexpectedToken)

/-- The final passes of `EdlParser::ParseBody` after the body loop, and the assembly of
the returned `Edl` value. -/
def FinishBody (perm : List String → List String) (file_name : String) (st : ParserState) :
    Except ParseFailure Edl :=
  match PerformFinalValidations st with
  | .error e => .error e
  | .ok _ =>
    let updated_types :=
      UpdateDeveloperTypeMetadata (perm (st.m_developer_types.map Prod.fst))
        st.m_developer_types
    .ok
      { m_name := file_name
        m_developer_types := updated_types
        m_developer_types_insertion_order_list := st.m_developer_types_insertion_order_list
        m_trusted_functions_map := st.m_trusted_functions_map
        m_trusted_functions_list := st.m_trusted_functions_list
        m_untrusted_functions_map := st.m_untrusted_functions_map
        m_untrusted_functions_list := st.m_untrusted_functions_list }

/-- `EdlParser::ParseBody`. -/
def ParseBody (perm : List String → List String) (file_name : String) (st : ParserState)
    (ts : List Token) (fuel : Nat) : Except ParseFailure (Edl × List Token) :=
  match parseBodyLoop st ts fuel with
  | .error e => .error e
  | .ok (st, ts) =>
    match FinishBody perm file_name st with
    | .error e => .error e
    | .ok edl => .ok (edl, ts)

/-- `EdlParser::Parse`.  `file_name` stands for the file stem that becomes the module
name; `perm` is the `std::unordered_map` iteration order used by the metadata pass. -/
def Parse (perm : List String → List String) (file_name : String) (ts : List Token)
    (fuel : Nat) : Except ParseFailure Edl :=
  match expectToken "enclave" ts with
  | .error e => .error e
  | .ok ts =>
    match expectToken "\x7b" ts with
    | .error e => .error e
    | .ok ts =>
      match ParseBody perm file_name ({}) ts fuel with
      | .error e => .error e
      | .ok (edl, ts) =>
        match expectToken "\x7d" ts with
        | .error e => .error e
        | .ok _ => .ok edl

/-! ### Specification-side definitions used by the theorems -/

/-- Build a token list from raw texts (the lexer itself is out of scope; parser inputs
are token streams). -/
def tks (l : List String) : List Token := l.map Token.mk

/-- The portion of an ABI name after its last underscore (used to read back the counter
value from `"{name}_{i}"`). -/
def abiSuffix (s : String) : String :=
  String.mk ((s.data.reverse.takeWhile (fun c => !(c == '_'))).reverse)

/-- Decimal value of a digit string (the reading-back function for `Nat.repr`). -/
def evalDigits (cs : List Char) : Nat :=
  cs.foldl (fun a c => 10 * a + (c.toNat - 48)) 0

/-- All functions of both banks, in bank order. -/
def allFunctions (st : ParserState) : List Function :=
  st.m_trusted_functions_list ++ st.m_untrusted_functions_list

/-- Names of the entries of the insertion-order list. -/
def orderNames (st : ParserState) : List String :=
  st.m_developer_types_insertion_order_list.map (fun t => t.m_name)

/-- The subsequence of first occurrences of a list of names (`seen` accumulates the
names already kept).  `dedupFirst [] l` keeps each name of `l` once, at the position
where it first appears. -/
def dedupFirst (seen : List String) : List String → List String
  | [] => []
  | a :: l => if a ∈ seen then dedupFirst seen l else a :: dedupFirst (seen ++ [a]) l

/-- Parse invariant behind claim C2: every map entry is stored under its own name, every
non-sentinel developer-type name occurs in the insertion-order list exactly once iff it
is a key of the map, the anonymous-enum sentinel occurs in the list iff it is a key
of the map (it occurs once per anonymous `enum` block, hence possibly more than once),
and the map's key sequence — its insertion order, since `setType` / `AddDeveloperType`
append fresh keys at the end — equals the sequence of first occurrences of the
insertion-order list. -/
def TypeListInv (st : ParserState) : Prop :=
  (∀ p ∈ st.m_developer_types, p.2.m_name = p.1) ∧
  (∀ n, n ≠ EDL_ANONYMOUS_ENUM_KEYWORD →
    (orderNames st).count n =
      (if (List.lookup n st.m_developer_types).isSome then 1 else 0)) ∧
  (EDL_ANONYMOUS_ENUM_KEYWORD ∈ orderNames st ↔
    (List.lookup EDL_ANONYMOUS_ENUM_KEYWORD st.m_developer_types).isSome) ∧
  st.m_developer_types.map Prod.fst = dedupFirst [] (orderNames st)

/-- Parse invariant behind claim C3: every assigned ABI name has the form
`name ++ "_" ++ i`, and the multiset of assigned counter values is exactly
`{0, …, m_abi_function_index - 1}`. -/
def AbiInv (st : ParserState) : Prop :=
  (∀ f ∈ allFunctions st, ∃ i, f.abi_m_name = f.m_name ++ "_" ++ Nat.repr i) ∧
  ((allFunctions st).map (fun f => abiSuffix f.abi_m_name)).Perm
    ((List.range st.m_abi_function_index).map Nat.repr)

/-- The combined parse invariant: `TypeListInv` and `AbiInv` together. -/
def StInv (st : ParserState) : Prop := TypeListInv st ∧ AbiInv st

/-- A chain of struct-typed fields (possibly empty) starting at the developer type named
`n` reaches a declaration satisfying `P` (spec §3: the transitive-closure reading of
`contains_inner_pointer` / `contains_container_type`). -/
inductive ChainReaches (types : List (String × DeveloperType)) (P : Declaration → Bool) :
    String → Prop
  | direct (n : String) (T : DeveloperType) (f : Declaration) :
      List.lookup n types = some T → f ∈ T.m_fields → P f = true → ChainReaches types P n
  | step (n : String) (T : DeveloperType) (f : Declaration) :
      List.lookup n types = some T → f ∈ T.m_fields →
      f.IsEdlType EdlTypeKind.Struct = true →
      ChainReaches types P f.m_edl_type_info.m_name → ChainReaches types P n

/-- Declare-before-use for a developer-type map: every struct-typed field of an entry
names a key that occurs strictly earlier (`seen` accumulates the earlier keys). -/
def DBU (seen : List String) : List (String × DeveloperType) → Bool
  | [] => true
  | (k, T) :: rest =>
    T.m_fields.all (fun f =>
      !(f.IsEdlType EdlTypeKind.Struct) || seen.contains f.m_edl_type_info.m_name)
      && DBU (seen ++ [k]) rest

/-- The value an enum member stands for: its explicit value when one was declared,
otherwise its running position. -/
def effectivePos (m : EnumType) : Nat := m.m_declared_position.getD m.m_position

/-- Position discipline of the members appended by one enum block, starting from running
position `cur`: each member's `m_position` is the running position, an explicit `= N`
records `N` in `m_declared_position` (parsed from the literal token), and the running
position after a member is its effective value plus one. -/
def EnumPositionsOk : Nat → List (String × EnumType) → Prop
  | _, [] => True
  | cur, (_, m) :: rest =>
    m.m_position = cur ∧
    (m.m_declared_position = none → m.m_value = none) ∧
    (∀ N, m.m_declared_position = some N →
      ∃ tok, m.m_value = some tok ∧
        (TryParseDecimal tok = some N ∨
          (TryParseDecimal tok = none ∧ TryParseHexidecimal tok = some N))) ∧
    EnumPositionsOk (effectivePos m + 1) rest

/-- Discriminates the `EdlEnumValueIdentifierNotFound` outcome of a parser step. -/
def isEnumValueIdentError {α : Type} : Except ParseFailure α → Bool
  | .error (.analysis .EdlEnumValueIdentifierNotFound) => true
  | _ => false

/-- Input of claim C1's failing case: a pointer parameter whose `count` attribute names
`bogus`, which is neither an anonymous-enum member nor a sibling declaration. -/
def c1Tokens : List Token :=
  tks ["enclave", "\x7b", "trusted", "\x7b", "void", "F", "(", "[", "in", ",", "count", "=",
       "bogus", "]", "uint8_t", "*", "p", ")", ";", "\x7d", ";", "\x7d"]

/-- Input of claim C2's counterexample: two anonymous `enum` blocks. -/
def c2Tokens : List Token :=
  tks ["enclave", "\x7b", "enum", "\x7b", "A", "\x7d", ";", "enum", "\x7b", "B", "\x7d", ";", "\x7d"]

/-- Input of claim C3's witness: one trusted and one untrusted parameterless function. -/
def c3Tokens : List Token :=
  tks ["enclave", "\x7b", "trusted", "\x7b", "void", "F", "(", ")", ";", "\x7d", ";",
       "untrusted", "\x7b", "void", "G", "(", ")", ";", "\x7d", ";", "\x7d"]

/-- Input of claim C4's counterexample: `enum E { A = 5, B };`. -/
def c4Tokens : List Token :=
  tks ["enclave", "\x7b", "enum", "E", "\x7b", "A", "=", "5", ",", "B", "\x7d", ";", "\x7d"]

/-- Input of claim C5's counterexample: a depth-2 struct chain reaching a pointer. -/
def c5Tokens : List Token :=
  tks ["enclave", "\x7b", "struct", "A", "\x7b", "uint8_t", "*", "p", ";", "\x7d", ";",
       "struct", "B", "\x7b", "A", "a", ";", "\x7d", ";",
       "struct", "C", "\x7b", "B", "b", ";", "\x7d", ";", "\x7d"]

/-- Input of claim C6's counterexample: an annotated pointer-to-void parameter. -/
def c6Tokens : List Token :=
  tks ["enclave", "\x7b", "trusted", "\x7b", "void", "F", "(", "[", "in", ",", "size", "=",
       "4", "]", "void", "*", "p", ")", ";", "\x7d", ";", "\x7d"]

/-- Input of claim C7's counterexample: a pointer parameter with an array dimension whose
attribute block contains only `size`. -/
def c7Tokens : List Token :=
  tks ["enclave", "\x7b", "trusted", "\x7b", "void", "F", "(", "[", "size", "=", "4", "]",
       "uint8_t", "*", "p", "[", "2", "]", ")", ";", "\x7d", ";", "\x7d"]

/-- The field `uint8_t* p` of the concrete struct `A` used by claim C5's witness. -/
def c5FieldP : Declaration :=
  { m_parent_kind := .Struct
    m_name := "p"
    m_edl_type_info := { m_name := "uint8_t", m_type_kind := .UInt8, is_pointer := true } }

/-- The field `A a` of the concrete struct `B` used by claim C5's witness. -/
def c5FieldA : Declaration :=
  { m_parent_kind := .Struct
    m_name := "a"
    m_edl_type_info := { m_name := "A", m_type_kind := .Struct } }

/-- The field `B b` of the concrete struct `C` used by claim C5's witness. -/
def c5FieldB : Declaration :=
  { m_parent_kind := .Struct
    m_name := "b"
    m_edl_type_info := { m_name := "B", m_type_kind := .Struct } }

/-- The developer-type map produced by parsing `struct A { uint8_t* p; }; struct B { A a; };
struct C { B b; };`, with the initial (direct-field) metadata flags. -/
def c5Types : List (String × DeveloperType) :=
  [("A", { m_name := "A", m_type_kind := .Struct, m_fields := [c5FieldP],
           m_contains_inner_pointer := true }),
   ("B", { m_name := "B", m_type_kind := .Struct, m_fields := [c5FieldA] }),
   ("C", { m_name := "C", m_type_kind := .Struct, m_fields := [c5FieldB] })]

/-- The trusted function `F` of claim C3's witness input. -/
def c3FunctionF : Function :=
  { m_name := "F"
    abi_m_name := "F_0"
    m_return_info :=
      { m_parent_kind := .Function
        m_name := "_return_value_"
        m_edl_type_info := { m_name := "void", m_type_kind := .Void }
        m_attribute_info := some { m_out_present := true } }
    m_parameters := [] }

/-- The untrusted function `G` of claim C3's witness input. -/
def c3FunctionG : Function :=
  { m_name := "G"
    abi_m_name := "G_1"
    m_return_info :=
      { m_parent_kind := .Function
        m_name := "_return_value_"
        m_edl_type_info := { m_name := "void", m_type_kind := .Void }
        m_attribute_info := some { m_out_present := true } }
    m_parameters := [] }

/-- The module parsed from `c3Tokens`: `F` in the trusted bank, `G` in the untrusted
bank, with the shared counter yielding `F_0` and `G_1`. -/
def c3WitnessEdl : Edl :=
  { m_name := "m"
    m_developer_types := []
    m_developer_types_insertion_order_list := []
    m_trusted_functions_map := [("F()", c3FunctionF)]
    m_trusted_functions_list := [c3FunctionF]
    m_untrusted_functions_map := [("G()", c3FunctionG)]
    m_untrusted_functions_list := [c3FunctionG] }

/-- Input of the `ParseStruct` instance of claim C2's witness: the tokens of
`struct S { uint8_t x; };` after the `struct` keyword. -/
def c2bStructTokens : List Token := tks ["S", "\x7b", "uint8_t", "x", ";", "\x7d", ";"]

/-- The parser state produced by running `ParseStruct` on `c2bStructTokens` from the
initial state. -/
def c2bStructState : ParserState :=
  ((ParseStruct ({}) c2bStructTokens 50).toOption.getD (({}), [])).1

/-- Input of the `ParseEnum` instance of claim C2's witness: the tokens of an anonymous
`enum { A };` block after the `enum` keyword. -/
def c2bEnumTokens : List Token := tks ["\x7b", "A", "\x7d", ";"]

/-- The parser state produced by running `ParseEnum` on `c2bEnumTokens` from the initial
state. -/
def c2bEnumState : ParserState :=
  ((ParseEnum ({}) c2bEnumTokens 50).toOption.getD (({}), [])).1

/-- Input of the whole-parse instance of claim C2's witness: a struct, an anonymous enum
block, a named enum and a second anonymous enum block, in that source order. -/
def c2bTokens : List Token :=
  tks ["enclave", "\x7b", "struct", "S", "\x7b", "uint8_t", "x", ";", "\x7d", ";",
       "enum", "\x7b", "A", "\x7d", ";",
       "enum", "E", "\x7b", "B", "\x7d", ";",
       "enum", "\x7b", "C", "\x7d", ";", "\x7d"]

/-- The module parsed from `c2bTokens`: map keys `[S, __anonymous_enum__, E]` and order
list `[S, __anonymous_enum__, E, __anonymous_enum__]`. -/
def c2bEdl : Edl :=
  (Parse id "m" c2bTokens 100).toOption.getD (Edl.mk "" [] [] [] [] [] [])

end EdlProcessor

/-! ### Theorems -/

namespace EdlProcessor

/-! #### Decimal rendering: reading `Nat.repr` back -/

theorem digitChar_ne_underscore {n : Nat} (h : n < 10) : Nat.digitChar n ≠ '_' := by
  interval_cases n <;> decide

theorem digitChar_val {n : Nat} (h : n < 10) : (Nat.digitChar n).toNat - 48 = n := by
  interval_cases n <;> decide

theorem toDigitsCore_append (b : Nat) :
    ∀ (fuel n : Nat) (ds : List Char),
      Nat.toDigitsCore b fuel n ds = Nat.toDigitsCore b fuel n [] ++ ds := by
  intro fuel
  induction fuel with
  | zero => intro n ds; rfl
  | succ fuel ih =>
    intro n ds
    simp only [Nat.toDigitsCore]
    by_cases h : n / b = 0
    · simp [h]
    · rw [if_neg h, if_neg h, ih (n / b) (Nat.digitChar (n % b) :: ds),
        ih (n / b) [Nat.digitChar (n % b)], List.append_assoc]
      rfl

theorem toDigitsCore_ne_underscore :
    ∀ (fuel n : Nat) (ds : List Char), (∀ c ∈ ds, c ≠ '_') →
      ∀ c ∈ Nat.toDigitsCore 10 fuel n ds, c ≠ '_' := by
  intro fuel
  induction fuel with
  | zero => intro n ds h; exact h
  | succ fuel ih =>
    intro n ds h c hc
    simp only [Nat.toDigitsCore] at hc
    by_cases h0 : n / 10 = 0
    · rw [if_pos h0] at hc
      rcases List.mem_cons.mp hc with rfl | hmem
      · exact digitChar_ne_underscore (Nat.mod_lt n (by norm_num))
      · exact h c hmem
    · rw [if_neg h0] at hc
      refine ih (n / 10) (Nat.digitChar (n % 10) :: ds) ?_ c hc
      intro x hx
      rcases List.mem_cons.mp hx with rfl | hmem
      · exact digitChar_ne_underscore (Nat.mod_lt n (by norm_num))
      · exact h x hmem

theorem toDigits_ne_underscore (n : Nat) : ∀ c ∈ Nat.toDigits 10 n, c ≠ '_' :=
  toDigitsCore_ne_underscore (n + 1) n [] (by intro c hc; cases hc)

theorem evalDigits_append (xs : List Char) (c : Char) :
    evalDigits (xs ++ [c]) = 10 * evalDigits xs + (c.toNat - 48) := by
  simp [evalDigits, List.foldl_append]

theorem eval_toDigitsCore :
    ∀ (fuel n : Nat), n < 10 ^ fuel → evalDigits (Nat.toDigitsCore 10 fuel n []) = n := by
  intro fuel
  induction fuel with
  | zero =>
    intro n h
    have : n = 0 := by simpa using Nat.lt_one_iff.mp (by simpa using h)
    subst this; rfl
  | succ fuel ih =>
    intro n h
    simp only [Nat.toDigitsCore]
    by_cases h0 : n / 10 = 0
    · have hn : n < 10 := by omega
      rw [if_pos h0]
      show evalDigits [Nat.digitChar (n % 10)] = n
      have : evalDigits [Nat.digitChar (n % 10)] = (Nat.digitChar (n % 10)).toNat - 48 := by
        simp [evalDigits]
      rw [this, digitChar_val (Nat.mod_lt n (by norm_num))]
      omega
    · have hdiv : n / 10 < 10 ^ fuel := by
        rw [pow_succ] at h
        omega
      rw [if_neg h0, toDigitsCore_append, evalDigits_append, ih (n / 10) hdiv,
        digitChar_val (Nat.mod_lt n (by norm_num))]
      omega

theorem eval_toDigits (n : Nat) : evalDigits (Nat.toDigits 10 n) = n := by
  have h : n < 10 ^ (n + 1) := by
    calc n < 2 ^ n := Nat.lt_two_pow n
    _ ≤ 10 ^ n := Nat.pow_le_pow_left (by norm_num) n
    _ ≤ 10 ^ (n + 1) := Nat.pow_le_pow_right (by norm_num) (Nat.le_succ n)
  exact eval_toDigitsCore (n + 1) n h

theorem repr_inj {m n : Nat} (h : Nat.repr m = Nat.repr n) : m = n := by
  have hd : Nat.toDigits 10 m = Nat.toDigits 10 n := by
    have := congrArg String.data h
    simpa [Nat.repr, List.asString] using this
  calc m = evalDigits (Nat.toDigits 10 m) := (eval_toDigits m).symm
  _ = evalDigits (Nat.toDigits 10 n) := by rw [hd]
  _ = n := eval_toDigits n

theorem takeWhile_all_append (p : Char → Bool) :
    ∀ (l : List Char) (x : Char) (r : List Char), (∀ c ∈ l, p c = true) → p x = false →
      (l ++ x :: r).takeWhile p = l := by
  intro l
  induction l with
  | nil => intro x r _ hx; simp [List.takeWhile_cons, hx]
  | cons a l ih =>
    intro x r h hx
    have ha : p a = true := h a (by simp)
    simp only [List.cons_append, List.takeWhile_cons, ha, if_true]
    rw [ih x r (fun c hc => h c (by simp [hc])) hx]

theorem strDataAppend (a b : String) : (a ++ b).data = a.data ++ b.data := by
  cases a; cases b; rfl

theorem abiSuffix_spec (name : String) (i : Nat) :
    abiSuffix (name ++ "_" ++ Nat.repr i) = Nat.repr i := by
  have hrepr : (Nat.repr i).data = Nat.toDigits 10 i := by
    simp [Nat.repr, List.asString]
  have hall : ∀ c ∈ (Nat.repr i).data.reverse, (!(c == '_')) = true := by
    intro c hc
    have hmem := List.mem_reverse.mp hc
    rw [hrepr] at hmem
    simpa using toDigits_ne_underscore i c hmem
  have h1 : (name ++ "_" ++ Nat.repr i).data.reverse =
      (Nat.repr i).data.reverse ++ '_' :: name.data.reverse := by
    rw [strDataAppend, strDataAppend]
    simp
  unfold abiSuffix
  rw [h1, takeWhile_all_append _ _ _ _ hall (by decide), List.reverse_reverse]

theorem abi_index_inj {n1 n2 : String} {i1 i2 : Nat}
    (h : n1 ++ "_" ++ Nat.repr i1 = n2 ++ "_" ++ Nat.repr i2) : i1 = i2 := by
  have := congrArg abiSuffix h
  rw [abiSuffix_spec, abiSuffix_spec] at this
  exact repr_inj this

end EdlProcessor

namespace EdlProcessor

/-! #### C1: the count attribute token is never validated -/

/-- C1: refuted by evaluation (code bug kept by the spec as an open question): on
`void F([in, count=bogus] uint8_t* p);` the final validation pass validates the (empty)
size token twice and never the count token `bogus`, so `Parse` succeeds although `bogus`
names neither an anonymous-enum member nor a sibling declaration — the claim requires
`EdlSizeOrCountAttributeNotFound`.  The projection also shows there are no developer
types (hence no anonymous enum) and the only sibling is `p`. -/
theorem C1_count_token_never_validated :
    (Parse id "m" c1Tokens 100).toOption.map
        (fun edl =>
          (edl.m_developer_types,
           edl.m_trusted_functions_list.map (fun f =>
             (f.m_parameters.map (fun p => p.m_name),
              f.m_parameters.map (fun p =>
                p.m_attribute_info.map (fun a => (a.m_size_info, a.m_count_info))))))) =
      some ([], [(["p"], [some (⟨""⟩, ⟨"bogus"⟩)])]) := by
  rfl

/-! #### C6: pointer-to-void is rejected with or without attributes -/

/-- C6 (amended): every pointer-to-void declaration fails `ValidatePointers` with
`EdlPointerToVoidMustBeAnnotated`, whether or not it carries an attribute block — the
void check precedes the attribute check. -/
theorem C6_pointer_to_void_always_rejected (d : Declaration)
    (hp : d.HasPointer = true)
    (hv : d.m_edl_type_info.m_type_kind = EdlTypeKind.Void) :
    ValidatePointers d = .error (.analysis .EdlPointerToVoidMustBeAnnotated) := by
  simp [ValidatePointers, hp, hv]

/-- C6 witness: the amended theorem applied to the annotated parameter
`[in, size=4] void* p`. -/
theorem C6_pointer_to_void_always_rejected_witness :
    ValidatePointers
      { m_parent_kind := .Function
        m_name := "p"
        m_edl_type_info := { m_name := "void", m_type_kind := .Void, is_pointer := true }
        m_attribute_info := some { m_in_present := true, m_size_info := ⟨"4"⟩ } } =
      .error (.analysis .EdlPointerToVoidMustBeAnnotated) :=
  C6_pointer_to_void_always_rejected _ rfl rfl

/-- C6 counterexample: the claim says an attributed `void*` parameter is not rejected,
but parsing `void F([in, size=4] void* p);` fails with `EdlPointerToVoidMustBeAnnotated`. -/
theorem C6_counterexample :
    Parse id "m" c6Tokens 100 = .error (.analysis .EdlPointerToVoidMustBeAnnotated) := by
  rfl

/-! #### C7: pointer + array/vector is rejected only when in/out is present -/

/-- C7 (amended): for a function-parameter pointer declaration (of non-void type), the
`EdlPointerToArrayNotAllowed` error fires exactly when the attribute block records `in`
or `out` (which the default `{in=true}` of attribute-less parameters does) and the
declaration has an array dimension or `Vector` type. -/
theorem C7_pointer_array_needs_direction (d : Declaration) (a : ParsedAttributeInfo)
    (hpar : d.m_parent_kind = DeclarationParentKind.Function)
    (hp : d.HasPointer = true)
    (hv : ¬ d.m_edl_type_info.m_type_kind = EdlTypeKind.Void)
    (hattr : d.m_attribute_info = some a)
    (hio : (a.m_in_present || a.m_out_present) = true)
    (harr : ¬ d.m_array_dimensions = [] ∨ d.IsEdlType EdlTypeKind.Vector = true) :
    ValidatePointers d = .error (.analysis .EdlPointerToArrayNotAllowed) := by
  rcases harr with harr | harr
  · simp [ValidatePointers, hp, hv, hattr, hpar, hio, harr]
  · by_cases hd : d.m_array_dimensions = []
    · simp [ValidatePointers, hp, hv, hattr, hpar, hio, hd, harr]
    · simp [ValidatePointers, hp, hv, hattr, hpar, hio, hd]

/-- C7 witness: the amended theorem applied to `[in] uint8_t* p[2]`. -/
theorem C7_pointer_array_needs_direction_witness :
    ValidatePointers
      { m_parent_kind := .Function
        m_name := "p"
        m_edl_type_info := { m_name := "uint8_t", m_type_kind := .UInt8, is_pointer := true }
        m_attribute_info := some { m_in_present := true }
        m_array_dimensions := ["2"] } =
      .error (.analysis .EdlPointerToArrayNotAllowed) :=
  C7_pointer_array_needs_direction _ { m_in_present := true } rfl rfl
    (by decide) rfl rfl (Or.inl (by decide))

/-- C7 counterexample: the claim says a pointer parameter combined with an array
dimension fails whatever the attribute block contains, but
`void F([size=4] uint8_t* p[2]);` parses successfully (the error requires `in`/`out`):
the parsed parameter has a pointer, dimension `["2"]`, and neither `in` nor `out`. -/
theorem C7_counterexample :
    (Parse id "m" c7Tokens 100).toOption.map
        (fun edl => edl.m_trusted_functions_list.map (fun f =>
          f.m_parameters.map (fun p =>
            (p.HasPointer, p.m_array_dimensions,
             p.m_attribute_info.map (fun a => (a.m_in_present, a.m_out_present)))))) =
      some [[(true, ["2"], some (false, false))]] := by
  rfl

/-! #### C10: the final passes leave the insertion-order list untouched -/

/-- C10: after the body loop, the final passes (`PerformFinalValidations`, which only
validates, and `UpdateDeveloperTypeMetadata`, which rewrites only the name-keyed map)
leave the insertion-order list and both function banks exactly as the body loop left
them; in particular the order-list entries keep their parse-time metadata flags. -/
theorem C10_final_passes_only_touch_map (perm : List String → List String)
    (nm : String) (st : ParserState) (edl : Edl)
    (h : FinishBody perm nm st = .ok edl) :
    edl.m_developer_types_insertion_order_list =
      st.m_developer_types_insertion_order_list ∧
    edl.m_trusted_functions_map = st.m_trusted_functions_map ∧
    edl.m_trusted_functions_list = st.m_trusted_functions_list ∧
    edl.m_untrusted_functions_map = st.m_untrusted_functions_map ∧
    edl.m_untrusted_functions_list = st.m_untrusted_functions_list := by
  unfold FinishBody at h
  split at h
  · exact absurd h (by simp)
  · injection h with h
    subst h
    exact ⟨rfl, rfl, rfl, rfl, rfl⟩

/-- C10 witness: on the parsed state of the `A`/`B`/`C` struct chain the metadata pass
updates the map flags of `B` and `C`, yet the returned `Edl` keeps the insertion-order
list (with its parse-time flags) unchanged. -/
theorem C10_final_passes_only_touch_map_witness :
    (Edl.mk "m" (UpdateDeveloperTypeMetadata (c5Types.map Prod.fst) c5Types)
        (c5Types.map Prod.snd) [] [] [] []).m_developer_types_insertion_order_list =
      ({ m_developer_types := c5Types
         m_developer_types_insertion_order_list := c5Types.map Prod.snd } :
        ParserState).m_developer_types_insertion_order_list ∧
    (Edl.mk "m" (UpdateDeveloperTypeMetadata (c5Types.map Prod.fst) c5Types)
        (c5Types.map Prod.snd) [] [] [] []).m_trusted_functions_map = [] ∧
    (Edl.mk "m" (UpdateDeveloperTypeMetadata (c5Types.map Prod.fst) c5Types)
        (c5Types.map Prod.snd) [] [] [] []).m_trusted_functions_list = [] ∧
    (Edl.mk "m" (UpdateDeveloperTypeMetadata (c5Types.map Prod.fst) c5Types)
        (c5Types.map Prod.snd) [] [] [] []).m_untrusted_functions_map = [] ∧
    (Edl.mk "m" (UpdateDeveloperTypeMetadata (c5Types.map Prod.fst) c5Types)
        (c5Types.map Prod.snd) [] [] [] []).m_untrusted_functions_list = [] :=
  C10_final_passes_only_touch_map id "m"
    { m_developer_types := c5Types
      m_developer_types_insertion_order_list := c5Types.map Prod.snd } _ rfl

end EdlProcessor

namespace EdlProcessor

/-! #### C9: anonymous-enum member names are not required to be identifiers -/

/-- C9: in an anonymous enum block the member-name identifier check is skipped: the
member loop can never fail with `EdlEnumValueIdentifierNotFound` (first conjunct), and a
non-identifier token such as `123` is accepted as a member name (second conjunct), while
a named enum rejects it (third conjunct) and the duplicate-name check still applies in
anonymous blocks (fourth conjunct). -/
theorem C9_anonymous_member_names_unchecked :
    (∀ (fuel : Nat) (items : List (String × EnumType)) (cur : Nat) (whex isdef : Bool)
        (ts : List Token),
      isEnumValueIdentError (parseEnumItemsLoop true items cur whex isdef ts fuel) = false) ∧
    parseEnumItemsLoop true [] 0 false true (tks ["123", ",", "_x", "\x7d"]) 10 =
      .ok ([("123", { m_name := "123", m_position := 0, m_is_default_value := true }),
            ("_x", { m_name := "_x", m_position := 1 })], tks ["\x7d"]) ∧
    parseEnumItemsLoop false [] 0 false true (tks ["123", "\x7d"]) 10 =
      .error (.analysis .EdlEnumValueIdentifierNotFound) ∧
    parseEnumItemsLoop true [] 0 false true (tks ["123", ",", "123", "\x7d"]) 10 =
      .error (.analysis .EdlEnumNameDuplicated) := by
  refine ⟨?_, by rfl, by rfl, by rfl⟩
  intro fuel
  induction fuel with
  | zero => intro items cur whex isdef ts; rfl
  | succ fuel ih =>
    intro items cur whex isdef ts
    rw [parseEnumItemsLoop]
    split
    · rfl
    · dsimp only
      simp only [Bool.not_true, Bool.false_and, Bool.false_eq_true, if_false]
      split
      next e heq =>
        repeat' split at heq
        all_goals first | (cases heq; rfl) | simp at heq
      next val heq =>
        split
        next e2 hc =>
          simp only [expectToken] at hc
          repeat' split at hc
          all_goals first | (cases hc; rfl) | simp at hc
        next ts3 hc =>
          split
          · rfl
          · exact ih _ _ _ _ _

/-! #### C4: enum member positions -/

/-- C4 (amended): the members appended by one enum-block member loop satisfy: the first
appended member's `m_position` is the loop's starting running position (0 at the start of
each block), an explicit `= N` stores the parsed `N` in `m_declared_position` (leaving
`m_position` at the running position), and each later member's `m_position` is the
previous member's effective value (`m_declared_position` if set, else `m_position`)
plus one. -/
theorem C4_amended_enum_positions :
    ∀ (fuel : Nat) (anon : Bool) (items0 : List (String × EnumType)) (cur : Nat)
      (whex isdef : Bool) (ts ts1 : List Token) (items1 : List (String × EnumType)),
      parseEnumItemsLoop anon items0 cur whex isdef ts fuel = .ok (items1, ts1) →
      ∃ new, items1 = items0 ++ new ∧ EnumPositionsOk cur new := by
  intro fuel
  induction fuel with
  | zero =>
    intro anon items0 cur whex isdef ts ts1 items1 h
    exact absurd h (by simp [parseEnumItemsLoop])
  | succ fuel ih =>
    intro anon items0 cur whex isdef ts ts1 items1 h
    rw [parseEnumItemsLoop] at h
    split at h
    · cases h
      exact ⟨[], by simp, trivial⟩
    · dsimp only at h
      split at h
      next hid => exact absurd h (by simp)
      next =>
        split at h
        next e heq => exact absurd h (by simp)
        next m cur2 whex2 ts2 heq =>
          split at h
          next e2 hc => exact absurd h (by simp)
          next ts3 hc =>
            split at h
            next hdup => exact absurd h (by simp)
            next hdup =>
              obtain ⟨new, hitems, hpos⟩ := ih _ _ _ _ _ _ _ _ h
              refine ⟨((getTok ts).1.text, m) :: new, ?_, ?_⟩
              · rw [hitems, List.append_assoc]
                rfl
              · split at heq
                · split at heq
                  next d hdec =>
                    cases heq
                    refine ⟨rfl, by simp, ?_, ?_⟩
                    · intro N hN
                      refine ⟨(getTok (getTok (getTok ts).2).2).1, rfl, Or.inl ?_⟩
                      simpa using hN ▸ hdec
                    · simpa [effectivePos] using hpos
                  next hdec =>
                    split at heq
                    next hx hhex =>
                      cases heq
                      refine ⟨rfl, by simp, ?_, ?_⟩
                      · intro N hN
                        refine ⟨(getTok (getTok (getTok ts).2).2).1, rfl, Or.inr ⟨hdec, ?_⟩⟩
                        simpa using hN ▸ hhex
                      · simpa [effectivePos] using hpos
                    next => exact absurd heq (by simp)
                · cases heq
                  refine ⟨rfl, by simp, by simp, ?_⟩
                  simpa [effectivePos] using hpos

end EdlProcessor

namespace EdlProcessor

/-- C4 witness: the amended theorem applied to the member list `A = 5, B`, whose parsed
members are `A` with `m_position = 0`, `m_declared_position = some 5` and `B` with
`m_position = 6`. -/
theorem C4_amended_enum_positions_witness :
    ∃ new,
      ([("A", { m_name := "A", m_position := 0, m_declared_position := some 5,
                m_value := some ⟨"5"⟩, m_is_default_value := true }),
        ("B", { m_name := "B", m_position := 6 })] : List (String × EnumType)) =
        [] ++ new ∧
      EnumPositionsOk 0 new :=
  C4_amended_enum_positions 20 false [] 0 false true
    (tks ["A", "=", "5", ",", "B", "\x7d"]) (tks ["\x7d"]) _ rfl

/-- C4 counterexample: parsing `enum E { A = 5, B };` gives `A` the position 0 (not 5,
which only lands in `m_declared_position`: the constructor-assigned `m_position` is not
updated by the `= N` branch) and `B` the position 6 (not `A.m_position + 1 = 1`). -/
theorem C4_counterexample :
    (Parse id "m" c4Tokens 100).toOption.map
        (fun edl => (List.lookup "E" edl.m_developer_types).map (fun t =>
          t.m_items.map (fun p => (p.1, p.2.m_position, p.2.m_declared_position)))) =
      some (some [("A", 0, some 5), ("B", 6, none)]) ∧
    (((0 : Nat) == 5) = false) ∧ (((6 : Nat) == 0 + 1) = false) :=
  ⟨rfl, rfl, rfl⟩

end EdlProcessor

namespace EdlProcessor

/-! #### C8: pointer returns are rejected; the synthetic return declaration -/

/-- C8: in `ParseFunctionDeclaration`, once the return type is parsed and the function
name token is an identifier, a pointer return type fails with
`EdlReturnValuesCannotBePointers`; and every successfully parsed function has
`return_info` named `_return_value_` with attributes `{out=true, in=false,
in_and_out=false}` and a non-pointer return type. -/
theorem C8_return_rules (types : List (String × DeveloperType)) (ts : List Token)
    (fuel : Nat) :
    (∀ tinfo ts1, ParseDeclarationTypeInfo types ts fuel = .ok (tinfo, ts1) →
      tinfo.is_pointer = true → (getTok ts1).1.IsIdentifier = true →
      ParseFunctionDeclaration types ts fuel =
        .error (.analysis .EdlReturnValuesCannotBePointers)) ∧
    (∀ f ts2, ParseFunctionDeclaration types ts fuel = .ok (f, ts2) →
      f.m_return_info.m_name = "_return_value_" ∧
      f.m_return_info.m_attribute_info =
        some { m_out_present := true, m_in_present := false, m_in_and_out_present := false } ∧
      f.m_return_info.m_edl_type_info.is_pointer = false) := by
  constructor
  · intro tinfo ts1 h hp hid
    unfold ParseFunctionDeclaration
    rw [h]
    dsimp only
    simp [hid, hp]
  · intro f ts2 h
    unfold ParseFunctionDeclaration at h
    split at h
    · exact absurd h (by simp)
    next tinfo ts1 heq =>
      dsimp only at h
      split at h
      next => exact absurd h (by simp)
      next =>
        split at h
        next => exact absurd h (by simp)
        next hnp =>
          split at h
          next => exact absurd h (by simp)
          next =>
            split at h
            next => exact absurd h (by simp)
            next ts3 hexp =>
              split at h
              next => exact absurd h (by simp)
              next params ts4 hfields =>
                split at h
                next => exact absurd h (by simp)
                next ts5 h2 =>
                  split at h
                  next => exact absurd h (by simp)
                  next ts6 h3 =>
                    cases h
                    refine ⟨rfl, rfl, ?_⟩
                    simpa using hnp

/-- C8 witness: `uint8_t* F();` is rejected with `EdlReturnValuesCannotBePointers`, and
the function parsed from `void F();` carries the synthetic `_return_value_` declaration
with `{out=true, in=false, in_and_out=false}`. -/
theorem C8_return_rules_witness :
    ParseFunctionDeclaration [] (tks ["uint8_t", "*", "F", "(", ")", ";"]) 50 =
      .error (.analysis .EdlReturnValuesCannotBePointers) ∧
    (Function.mk "F" ""
        { m_parent_kind := .Function
          m_name := "_return_value_"
          m_edl_type_info := { m_name := "void", m_type_kind := .Void }
          m_attribute_info := some { m_out_present := true } }
        []).m_return_info.m_name = "_return_value_" ∧
    (Function.mk "F" ""
        { m_parent_kind := .Function
          m_name := "_return_value_"
          m_edl_type_info := { m_name := "void", m_type_kind := .Void }
          m_attribute_info := some { m_out_present := true } }
        []).m_return_info.m_attribute_info =
      some { m_out_present := true, m_in_present := false, m_in_and_out_present := false } ∧
    (Function.mk "F" ""
        { m_parent_kind := .Function
          m_name := "_return_value_"
          m_edl_type_info := { m_name := "void", m_type_kind := .Void }
          m_attribute_info := some { m_out_present := true } }
        []).m_return_info.m_edl_type_info.is_pointer = false :=
  ⟨(C8_return_rules [] (tks ["uint8_t", "*", "F", "(", ")", ";"]) 50).1
      { m_name := "uint8_t", m_type_kind := .UInt8, is_pointer := true }
      (tks ["F", "(", ")", ";"]) rfl rfl (by decide),
   (C8_return_rules [] (tks ["void", "F", "(", ")", ";"]) 50).2
      (Function.mk "F" ""
        { m_parent_kind := .Function
          m_name := "_return_value_"
          m_edl_type_info := { m_name := "void", m_type_kind := .Void }
          m_attribute_info := some { m_out_present := true } }
        []) [] rfl⟩

end EdlProcessor

namespace EdlProcessor

theorem slookup_cons (n k : String) (v : DeveloperType) (l : List (String × DeveloperType)) :
    List.lookup n ((k, v) :: l) = if n = k then some v else List.lookup n l := by
  simp [List.lookup]
  split
  next h => simp [beq_iff_eq] at h; simp [h]
  next h => simp [beq_iff_eq] at h; simp [h]

theorem slookup_append (n : String) :
    ∀ (l1 l2 : List (String × DeveloperType)),
      List.lookup n (l1 ++ l2) =
        match List.lookup n l1 with
        | some v => some v
        | none => List.lookup n l2 := by
  intro l1
  induction l1 with
  | nil => intro l2; rfl
  | cons p l1 ih =>
    intro l2
    rcases p with ⟨k, v⟩
    rw [List.cons_append, slookup_cons, slookup_cons]
    by_cases h : n = k
    · simp [h]
    · simp [h, ih]

theorem slookup_mem_keys {n : String} {v : DeveloperType} :
    ∀ {l : List (String × DeveloperType)},
      List.lookup n l = some v → n ∈ l.map Prod.fst := by
  intro l
  induction l with
  | nil => intro h; simp at h
  | cons p l ih =>
    intro h
    rcases p with ⟨k, w⟩
    rw [slookup_cons] at h
    by_cases hk : n = k
    · simp [hk]
    · simp [hk] at h
      simp [ih h]

theorem lookup_isSome_of_mem_keys {n : String} :
    ∀ {l : List (String × DeveloperType)}, n ∈ l.map Prod.fst →
      (List.lookup n l).isSome = true := by
  intro l
  induction l with
  | nil => intro h; simp at h
  | cons p l ih =>
    intro h
    rcases p with ⟨k, w⟩
    rw [slookup_cons]
    by_cases hk : n = k
    · rw [if_pos hk]
      rfl
    · rw [if_neg hk]
      simp only [List.map_cons, List.mem_cons] at h
      rcases h with h | h
      · exact absurd h hk
      · exact ih h

theorem slookup_not_mem {n : String} :
    ∀ {l : List (String × DeveloperType)},
      n ∉ l.map Prod.fst → List.lookup n l = none := by
  intro l
  induction l with
  | nil => intro _; rfl
  | cons p l ih =>
    intro h
    rcases p with ⟨k, w⟩
    simp only [List.map_cons, List.mem_cons] at h
    push_neg at h
    rw [slookup_cons, if_neg h.1]
    exact ih h.2

theorem lookup_setType (k : String) (v : DeveloperType) :
    ∀ (l : List (String × DeveloperType)) (n : String),
      List.lookup n (setType l k v) = if n = k then some v else List.lookup n l := by
  intro l
  induction l with
  | nil => intro n; simp [setType, slookup_cons]
  | cons p l ih =>
    intro n
    rcases p with ⟨k0, v0⟩
    rw [setType]
    by_cases hk : k0 = k
    · simp only [hk, beq_self_eq_true, if_true]
      rw [slookup_cons, slookup_cons]
      by_cases hn : n = k
      · simp [hn]
      · simp [hn, hk]
    · have hbeq : (k0 == k) = false := by simp [hk]
      rw [hbeq]
      simp only [Bool.false_eq_true, if_false]
      rw [slookup_cons, slookup_cons, ih]
      by_cases hn : n = k0
      · have hnk : ¬ n = k := fun hh => hk (hn.symm.trans hh)
        simp [hn, hnk, hk]
      · simp [hn]

theorem keys_setType_of_mem (k : String) (v : DeveloperType) :
    ∀ (l : List (String × DeveloperType)), k ∈ l.map Prod.fst →
      (setType l k v).map Prod.fst = l.map Prod.fst := by
  intro l
  induction l with
  | nil => intro h; simp at h
  | cons p l ih =>
    intro h
    rcases p with ⟨k0, v0⟩
    rw [setType]
    by_cases hk : k0 = k
    · simp [hk]
    · have hbeq : (k0 == k) = false := by simp [hk]
      rw [hbeq]
      simp only [Bool.false_eq_true, if_false]
      simp only [List.map_cons, List.mem_cons] at h
      rcases h with h | h
      · exact absurd h.symm hk
      · simp [ih h]

theorem dedupFirst_append_mem (a : String) :
    ∀ (l seen : List String), a ∈ seen ∨ a ∈ l →
      dedupFirst seen (l ++ [a]) = dedupFirst seen l := by
  intro l
  induction l with
  | nil =>
    intro seen h
    rcases h with h | h
    · simp [dedupFirst, h]
    · exact absurd h (List.not_mem_nil a)
  | cons b l ih =>
    intro seen h
    rw [List.cons_append, dedupFirst, dedupFirst]
    by_cases hb : b ∈ seen
    · rw [if_pos hb, if_pos hb]
      refine ih seen ?_
      rcases h with h | h
      · exact Or.inl h
      · rcases List.mem_cons.mp h with h | h
        · exact Or.inl (h ▸ hb)
        · exact Or.inr h
    · rw [if_neg hb, if_neg hb]
      have hcond : a ∈ seen ++ [b] ∨ a ∈ l := by
        rcases h with h | h
        · exact Or.inl (List.mem_append_left _ h)
        · rcases List.mem_cons.mp h with h | h
          · exact Or.inl (List.mem_append_right _ (by simp [h]))
          · exact Or.inr h
      rw [ih (seen ++ [b]) hcond]

theorem dedupFirst_append_not_mem (a : String) :
    ∀ (l seen : List String), a ∉ seen → a ∉ l →
      dedupFirst seen (l ++ [a]) = dedupFirst seen l ++ [a] := by
  intro l
  induction l with
  | nil =>
    intro seen h1 _
    simp [dedupFirst, h1]
  | cons b l ih =>
    intro seen h1 h2
    simp only [List.mem_cons] at h2
    push_neg at h2
    rw [List.cons_append, dedupFirst, dedupFirst]
    by_cases hb : b ∈ seen
    · rw [if_pos hb, if_pos hb]
      exact ih seen h1 h2.2
    · rw [if_neg hb, if_neg hb, List.cons_append]
      have h1' : a ∉ seen ++ [b] := by
        intro hmem
        rcases List.mem_append.mp hmem with hmem | hmem
        · exact h1 hmem
        · exact h2.1 (List.mem_singleton.mp hmem)
      rw [ih (seen ++ [b]) h1' h2.2]

theorem setType_append_of_not_mem (k : String) (v : DeveloperType) :
    ∀ (l : List (String × DeveloperType)), k ∉ l.map Prod.fst →
      setType l k v = l ++ [(k, v)] := by
  intro l
  induction l with
  | nil => intro _; rfl
  | cons p l ih =>
    intro h
    rcases p with ⟨k0, v0⟩
    simp only [List.map_cons, List.mem_cons] at h
    push_neg at h
    rw [setType]
    have hk0 : ¬ k0 = k := fun hh => h.1 hh.symm
    have hbeq : (k0 == k) = false := by simp [hk0]
    rw [hbeq]
    simp only [Bool.false_eq_true, if_false, List.cons_append]
    rw [ih h.2]

theorem TypeListInv_mem_iff {st : ParserState} (hinv : TypeListInv st) (n : String) :
    n ∈ orderNames st ↔ (List.lookup n st.m_developer_types).isSome := by
  obtain ⟨-, hcount, hmem, -⟩ := hinv
  by_cases hn : n = EDL_ANONYMOUS_ENUM_KEYWORD
  · subst hn
    exact hmem
  · have hc := hcount n hn
    cases hsome : (List.lookup n st.m_developer_types).isSome
    · rw [hsome] at hc
      simp only [Bool.false_eq_true, if_false] at hc
      constructor
      · intro hmem2
        have hp := List.count_pos_iff.mpr hmem2
        rw [hc] at hp
        exact absurd hp (by simp)
      · intro hcontra
        exact absurd hcontra (by simp)
    · rw [hsome] at hc
      rw [if_pos rfl] at hc
      refine ⟨fun _ => rfl, fun _ => ?_⟩
      refine List.count_pos_iff.mp ?_
      rw [hc]
      exact Nat.one_pos

end EdlProcessor

namespace EdlProcessor

theorem updateTypeFieldsLoop_spec (types : List (String × DeveloperType)) :
    ∀ (fields : List Declaration) (cip cct : Bool),
      updateTypeFieldsLoop types cip cct fields =
        (cip || fields.any (fun f => f.IsEdlType EdlTypeKind.Struct &&
            ((List.lookup f.m_edl_type_info.m_name types).map
              (fun t => t.m_contains_inner_pointer)).getD false),
         cct || fields.any (fun f => f.IsEdlType EdlTypeKind.Struct &&
            ((List.lookup f.m_edl_type_info.m_name types).map
              (fun t => t.m_contains_container_type)).getD false)) := by
  intro fields
  induction fields with
  | nil => intro cip cct; simp [updateTypeFieldsLoop]
  | cons f rest ih =>
    intro cip cct
    rw [updateTypeFieldsLoop]
    split
    next hb =>
      rw [Bool.and_eq_true] at hb
      simp [hb.1, hb.2]
    next hb =>
      split
      next hs =>
        rw [Bool.not_eq_eq_eq_not, Bool.not_true] at hs
        simp [ih, hs]
      next hs =>
        have hs' : f.IsEdlType EdlTypeKind.Struct = true := by
          rcases Bool.eq_false_or_eq_true (f.IsEdlType EdlTypeKind.Struct) with h | h
          · exact h
          · exact absurd (by simp [h]) hs
        split
        next t hl => simp [ih, hs', hl, Bool.or_assoc]
        next hl => simp [ih, hs', hl]

theorem chainReaches_iff (types : List (String × DeveloperType)) (P : Declaration → Bool)
    (n : String) (T : DeveloperType) (hl : List.lookup n types = some T) :
    ChainReaches types P n ↔
      (T.m_fields.any P = true ∨
       ∃ f ∈ T.m_fields, f.IsEdlType EdlTypeKind.Struct = true ∧
         ChainReaches types P f.m_edl_type_info.m_name) := by
  constructor
  · intro h
    cases h with
    | direct n T2 f hl2 hf hP =>
      left
      have : T2 = T := by rw [hl] at hl2; exact (Option.some.inj hl2).symm
      subst this
      exact List.any_eq_true.mpr ⟨f, hf, hP⟩
    | step n T2 f hl2 hf hs hc =>
      right
      have : T2 = T := by rw [hl] at hl2; exact (Option.some.inj hl2).symm
      subst this
      exact ⟨f, hf, hs, hc⟩
  · intro h
    rcases h with h | ⟨f, hf, hs, hc⟩
    · obtain ⟨f, hf, hP⟩ := List.any_eq_true.mp h
      exact .direct n T f hl hf hP
    · exact .step n T f hl hf hs hc

end EdlProcessor

namespace EdlProcessor

theorem metadata_fold_main (types0 : List (String × DeveloperType))
    (hinit : ∀ p ∈ types0,
      p.2.m_contains_inner_pointer = p.2.m_fields.any (fun f => f.HasPointer) ∧
      p.2.m_contains_container_type = p.2.m_fields.any (fun f => f.IsContainerType))
    (hnd : (types0.map Prod.fst).Nodup) :
    ∀ (suf pre cur : List (String × DeveloperType)),
      types0 = pre ++ suf →
      DBU (pre.map Prod.fst) suf = true →
      cur.map Prod.fst = types0.map Prod.fst →
      (∀ n, n ∉ pre.map Prod.fst → List.lookup n cur = List.lookup n types0) →
      (∀ n, n ∈ pre.map Prod.fst →
        ∃ T, List.lookup n cur = some T ∧
          (T.m_contains_inner_pointer = true ↔
            ChainReaches types0 (fun f => f.HasPointer) n) ∧
          (T.m_contains_container_type = true ↔
            ChainReaches types0 (fun f => f.IsContainerType) n)) →
      (((suf.map Prod.fst).foldl updateOneDeveloperType cur).map Prod.fst
          = types0.map Prod.fst) ∧
      (∀ n, n ∈ types0.map Prod.fst →
        ∃ T, List.lookup n ((suf.map Prod.fst).foldl updateOneDeveloperType cur) = some T ∧
          (T.m_contains_inner_pointer = true ↔
            ChainReaches types0 (fun f => f.HasPointer) n) ∧
          (T.m_contains_container_type = true ↔
            ChainReaches types0 (fun f => f.IsContainerType) n)) := by
  intro suf
  induction suf with
  | nil =>
    intro pre cur heq hdbu hkeys huntouched hdone
    refine ⟨by simpa using hkeys, ?_⟩
    intro n hn
    have hn' : n ∈ pre.map Prod.fst := by
      rw [heq, List.append_nil] at hn
      exact hn
    simpa using hdone n hn'
  | cons p rest ih =>
    rcases p with ⟨k, Tk⟩
    intro pre cur heq hdbu hkeys huntouched hdone
    have hnd' := hnd
    rw [heq, List.map_append, List.map_cons, List.nodup_append] at hnd'
    have hknotpre : k ∉ pre.map Prod.fst := fun hmem => hnd'.2.2 hmem (by simp)
    have hlk0 : List.lookup k types0 = some Tk := by
      rw [heq, slookup_append, slookup_not_mem hknotpre]
      simp [slookup_cons]
    have hlkcur : List.lookup k cur = some Tk := by
      rw [huntouched k hknotpre]
      exact hlk0
    rw [DBU, Bool.and_eq_true] at hdbu
    obtain ⟨hfieldsOK, hdburest⟩ := hdbu
    have hTkinit : Tk.m_contains_inner_pointer = Tk.m_fields.any (fun f => f.HasPointer) ∧
        Tk.m_contains_container_type = Tk.m_fields.any (fun f => f.IsContainerType) := by
      refine hinit (k, Tk) ?_
      rw [heq]
      exact List.mem_append_right _ (by simp)
    -- the processed entry
    have hupd : updateOneDeveloperType cur k =
        setType cur k
          { Tk with
            m_contains_inner_pointer := Tk.m_contains_inner_pointer ||
              Tk.m_fields.any (fun f => f.IsEdlType EdlTypeKind.Struct &&
                ((List.lookup f.m_edl_type_info.m_name cur).map
                  (fun t => t.m_contains_inner_pointer)).getD false)
            m_contains_container_type := Tk.m_contains_container_type ||
              Tk.m_fields.any (fun f => f.IsEdlType EdlTypeKind.Struct &&
                ((List.lookup f.m_edl_type_info.m_name cur).map
                  (fun t => t.m_contains_container_type)).getD false) } := by
      rw [updateOneDeveloperType, hlkcur]
      dsimp only
      rw [updateTypeFieldsLoop_spec]
    -- membership of struct-typed field targets in the processed prefix
    have htargets : ∀ f ∈ Tk.m_fields, f.IsEdlType EdlTypeKind.Struct = true →
        f.m_edl_type_info.m_name ∈ pre.map Prod.fst := by
      intro f hf hs
      have := List.all_eq_true.mp hfieldsOK f hf
      rw [hs] at this
      simpa using this
    -- the closure characterization of the new flags
    have hiff1 : (Tk.m_contains_inner_pointer ||
        Tk.m_fields.any (fun f => f.IsEdlType EdlTypeKind.Struct &&
          ((List.lookup f.m_edl_type_info.m_name cur).map
            (fun t => t.m_contains_inner_pointer)).getD false)) = true ↔
        ChainReaches types0 (fun f => f.HasPointer) k := by
      rw [chainReaches_iff types0 _ k Tk hlk0, Bool.or_eq_true, hTkinit.1]
      constructor
      · rintro (h | h)
        · exact Or.inl h
        · right
          obtain ⟨f, hf, hcond⟩ := List.any_eq_true.mp h
          rw [Bool.and_eq_true] at hcond
          obtain ⟨T, hT, hT1, _⟩ := hdone _ (htargets f hf hcond.1)
          rw [hT] at hcond
          exact ⟨f, hf, hcond.1, hT1.mp (by simpa using hcond.2)⟩
      · rintro (h | ⟨f, hf, hs, hc⟩)
        · exact Or.inl h
        · right
          refine List.any_eq_true.mpr ⟨f, hf, ?_⟩
          rw [Bool.and_eq_true]
          obtain ⟨T, hT, hT1, _⟩ := hdone _ (htargets f hf hs)
          rw [hT]
          exact ⟨hs, by simpa using hT1.mpr hc⟩
    have hiff2 : (Tk.m_contains_container_type ||
        Tk.m_fields.any (fun f => f.IsEdlType EdlTypeKind.Struct &&
          ((List.lookup f.m_edl_type_info.m_name cur).map
            (fun t => t.m_contains_container_type)).getD false)) = true ↔
        ChainReaches types0 (fun f => f.IsContainerType) k := by
      rw [chainReaches_iff types0 _ k Tk hlk0, Bool.or_eq_true, hTkinit.2]
      constructor
      · rintro (h | h)
        · exact Or.inl h
        · right
          obtain ⟨f, hf, hcond⟩ := List.any_eq_true.mp h
          rw [Bool.and_eq_true] at hcond
          obtain ⟨T, hT, _, hT2⟩ := hdone _ (htargets f hf hcond.1)
          rw [hT] at hcond
          exact ⟨f, hf, hcond.1, hT2.mp (by simpa using hcond.2)⟩
      · rintro (h | ⟨f, hf, hs, hc⟩)
        · exact Or.inl h
        · right
          refine List.any_eq_true.mpr ⟨f, hf, ?_⟩
          rw [Bool.and_eq_true]
          obtain ⟨T, hT, _, hT2⟩ := hdone _ (htargets f hf hs)
          rw [hT]
          exact ⟨hs, by simpa using hT2.mpr hc⟩
    -- set up the inductive step
    have hkmem : k ∈ cur.map Prod.fst := by
      rw [hkeys, heq]
      simp
    have hfold : ((((k, Tk) :: rest).map Prod.fst).foldl updateOneDeveloperType cur)
        = (rest.map Prod.fst).foldl updateOneDeveloperType (updateOneDeveloperType cur k) := by
      simp [List.foldl_cons]
    rw [hfold, hupd]
    refine ih (pre ++ [(k, Tk)]) (setType cur k _) ?_ ?_ ?_ ?_ ?_
    · rw [heq, List.append_assoc]
      rfl
    · simpa using hdburest
    · rw [keys_setType_of_mem _ _ _ hkmem]
      exact hkeys
    · intro n hn
      simp only [List.map_append, List.map_cons, List.map_nil, List.mem_append,
        List.mem_singleton] at hn
      push_neg at hn
      rw [lookup_setType, if_neg hn.2]
      exact huntouched n hn.1
    · intro n hn
      simp only [List.map_append, List.map_cons, List.map_nil, List.mem_append,
        List.mem_singleton] at hn
      rcases hn with hn | hn
      · have hne : ¬ n = k := fun hh => hknotpre (hh ▸ hn)
        rw [lookup_setType, if_neg hne]
        exact hdone n hn
      · subst hn
        rw [lookup_setType, if_pos rfl]
        exact ⟨_, rfl, hiff1, hiff2⟩

end EdlProcessor

namespace EdlProcessor

/-! #### C5: metadata propagation computes the transitive closure only in declaration order -/

/-- C5 (amended): for a declare-before-use developer-type map whose structs carry the
direct (parse-time) metadata flags, the single `UpdateDeveloperTypeMetadata` pass visited
in declaration order leaves every type's `contains_inner_pointer` /
`contains_container_type` flag true exactly when some chain of struct-typed fields
(possibly empty) reaches a field with a pointer / of `Vector` kind.  (For an arbitrary
visit order of the unordered map this fails; see the counterexample.) -/
theorem C5_amended_metadata_closure (types : List (String × DeveloperType))
    (hnd : (types.map Prod.fst).Nodup)
    (hdbu : DBU [] types = true)
    (hinit : ∀ p ∈ types,
      p.2.m_contains_inner_pointer = p.2.m_fields.any (fun f => f.HasPointer) ∧
      p.2.m_contains_container_type = p.2.m_fields.any (fun f => f.IsContainerType)) :
    ∀ n T, List.lookup n (UpdateDeveloperTypeMetadata (types.map Prod.fst) types) = some T →
      (T.m_contains_inner_pointer = true ↔
        ChainReaches types (fun f => f.HasPointer) n) ∧
      (T.m_contains_container_type = true ↔
        ChainReaches types (fun f => f.IsContainerType) n) := by
  intro n T hT
  have hmain := metadata_fold_main types hinit hnd types [] types rfl (by simpa using hdbu)
    rfl (fun n _ => rfl) (by intro n hn; simp at hn)
  have hn : n ∈ types.map Prod.fst := by
    have hmem := slookup_mem_keys hT
    rw [show (UpdateDeveloperTypeMetadata (types.map Prod.fst) types).map Prod.fst =
        types.map Prod.fst from hmain.1] at hmem
    exact hmem
  obtain ⟨T2, hT2, hi1, hi2⟩ := hmain.2 n hn
  have : T2 = T := by
    have := hT2.symm.trans hT
    exact Option.some.inj this
  subst this
  exact ⟨hi1, hi2⟩

/-- C5 witness: the amended theorem applied to the `A`/`B`/`C` chain in declaration
order: the updated entry for `C` has `contains_inner_pointer = true`, matching the chain
`C.b → B.a → A.p`. -/
theorem C5_amended_metadata_closure_witness :
    (({ m_name := "C", m_type_kind := .Struct, m_fields := [c5FieldB],
        m_contains_inner_pointer := true } : DeveloperType).m_contains_inner_pointer = true ↔
      ChainReaches c5Types (fun f => f.HasPointer) "C") ∧
    (({ m_name := "C", m_type_kind := .Struct, m_fields := [c5FieldB],
        m_contains_inner_pointer := true } : DeveloperType).m_contains_container_type = true ↔
      ChainReaches c5Types (fun f => f.IsContainerType) "C") :=
  C5_amended_metadata_closure c5Types (by decide) (by decide) (by decide) "C"
    { m_name := "C", m_type_kind := .Struct, m_fields := [c5FieldB],
      m_contains_inner_pointer := true } (by rfl)

/-- C5 counterexample: the claim asserts the single pass establishes the closure
regardless of visit order; visiting the map of
`struct A { uint8_t* p; }; struct B { A a; }; struct C { B b; };` in reverse order
leaves `C.contains_inner_pointer = false` although a struct-field chain from `C`
reaches the pointer field `A.p` (the parsed fields equal those of `c5Types`). -/
theorem C5_counterexample :
    (Parse List.reverse "m" c5Tokens 200).toOption.map
        (fun edl => (List.lookup "C" edl.m_developer_types).map
          (fun t => t.m_contains_inner_pointer)) = some (some false) ∧
    (Parse List.reverse "m" c5Tokens 200).toOption.map
        (fun edl => edl.m_developer_types.map (fun p => (p.1, p.2.m_fields))) =
      some (c5Types.map (fun p => (p.1, p.2.m_fields))) ∧
    ChainReaches c5Types (fun f => f.HasPointer) "C" := by
  refine ⟨rfl, rfl, ?_⟩
  refine ChainReaches.step "C"
    { m_name := "C", m_type_kind := .Struct, m_fields := [c5FieldB] } c5FieldB rfl
    (by simp) (by decide) ?_
  show ChainReaches c5Types (fun f => f.HasPointer) "B"
  refine ChainReaches.step "B"
    { m_name := "B", m_type_kind := .Struct, m_fields := [c5FieldA] } c5FieldA rfl
    (by simp) (by decide) ?_
  show ChainReaches c5Types (fun f => f.HasPointer) "A"
  exact ChainReaches.direct "A"
    { m_name := "A", m_type_kind := .Struct, m_fields := [c5FieldP],
      m_contains_inner_pointer := true } c5FieldP rfl (by simp) (by decide)

end EdlProcessor

namespace EdlProcessor

theorem slookup_mem_pair {n : String} {v : DeveloperType} :
    ∀ {l : List (String × DeveloperType)}, List.lookup n l = some v → (n, v) ∈ l := by
  intro l
  induction l with
  | nil => intro h; simp at h
  | cons p l ih =>
    intro h
    rcases p with ⟨k, w⟩
    rw [slookup_cons] at h
    by_cases hk : n = k
    · rw [if_pos hk] at h
      subst hk
      cases Option.some.inj h
      exact List.mem_cons_self _ _
    · rw [if_neg hk] at h
      exact List.mem_cons_of_mem _ (ih h)

theorem mem_setType {p : String × DeveloperType} (k : String) (v : DeveloperType) :
    ∀ {l : List (String × DeveloperType)}, p ∈ setType l k v → p = (k, v) ∨ p ∈ l := by
  intro l
  induction l with
  | nil =>
    intro h
    rw [setType] at h
    simp at h
    exact Or.inl (by simp [h])
  | cons q l ih =>
    intro h
    rcases q with ⟨k0, v0⟩
    rw [setType] at h
    by_cases hk : k0 = k
    · simp only [hk, beq_self_eq_true, if_true] at h
      rcases List.mem_cons.mp h with h | h
      · exact Or.inl h
      · exact Or.inr (List.mem_cons_of_mem _ h)
    · have hbeq : (k0 == k) = false := by simp [hk]
      rw [hbeq] at h
      simp only [Bool.false_eq_true, if_false] at h
      rcases List.mem_cons.mp h with h | h
      · exact Or.inr (by simp [h])
      · rcases ih h with h | h
        · exact Or.inl h
        · exact Or.inr (List.mem_cons_of_mem _ h)

theorem AbiInv_congr {st st2 : ParserState}
    (h1 : st2.m_trusted_functions_list = st.m_trusted_functions_list)
    (h2 : st2.m_untrusted_functions_list = st.m_untrusted_functions_list)
    (h3 : st2.m_abi_function_index = st.m_abi_function_index)
    (h : AbiInv st) : AbiInv st2 := by
  unfold AbiInv allFunctions at h ⊢
  rw [h1, h2, h3]
  exact h

theorem TypeListInv_add (st : ParserState) (T : DeveloperType)
    (hfresh : List.lookup T.m_name st.m_developer_types = none)
    (hinv : TypeListInv st) : TypeListInv (AddDeveloperType st T) := by
  have hmemiff := TypeListInv_mem_iff hinv
  obtain ⟨hnm, hcount, hmem, hkeys⟩ := hinv
  have horder : orderNames (AddDeveloperType st T) = orderNames st ++ [T.m_name] := by
    simp [AddDeveloperType, orderNames]
  have hlook : ∀ n, List.lookup n (AddDeveloperType st T).m_developer_types =
      match List.lookup n st.m_developer_types with
      | some v => some v
      | none => if n = T.m_name then some T else none := by
    intro n
    show List.lookup n (st.m_developer_types ++ [(T.m_name, T)]) = _
    rw [slookup_append]
    rcases List.lookup n st.m_developer_types with _ | v
    · simp [slookup_cons]
    · simp
  refine ⟨?_, ?_, ?_, ?_⟩
  · intro p hp
    rcases List.mem_append.mp hp with hp | hp
    · exact hnm p hp
    · simp at hp
      simp [hp]
  · intro n hn
    rw [horder, List.count_append, hlook n, hcount n hn]
    by_cases hT : n = T.m_name
    · subst hT
      rw [hfresh]
      simp
    · rcases hl : List.lookup n st.m_developer_types with _ | v
      · simp [hT, List.count_cons, hT]
      · simp [List.count_cons, hT]
  · rw [horder, hlook _]
    by_cases hT : EDL_ANONYMOUS_ENUM_KEYWORD = T.m_name
    · rw [← hT] at hfresh ⊢
      rw [hfresh]
      simp
    · rcases hl : List.lookup EDL_ANONYMOUS_ENUM_KEYWORD st.m_developer_types with _ | v
      · rw [hl] at hmem
        simp [hT, hmem]
      · rw [hl] at hmem
        simp [hT, hmem]
  · have hnotmem : T.m_name ∉ orderNames st := by
      intro hm
      have hx := (hmemiff T.m_name).mp hm
      rw [hfresh] at hx
      exact absurd hx (by simp)
    have hkeys2 : (AddDeveloperType st T).m_developer_types.map Prod.fst =
        st.m_developer_types.map Prod.fst ++ [T.m_name] := by
      simp [AddDeveloperType]
    rw [hkeys2, horder,
      dedupFirst_append_not_mem T.m_name (orderNames st) [] (List.not_mem_nil _) hnotmem,
      hkeys]

end EdlProcessor

namespace EdlProcessor

theorem isSome_false_none {α : Type} {o : Option α} (h : ¬ o.isSome = true) : o = none := by
  cases o <;> simp_all

theorem setType_setType (k : String) (v w : DeveloperType) :
    ∀ (l : List (String × DeveloperType)), setType (setType l k v) k w = setType l k w := by
  intro l
  induction l with
  | nil => simp [setType]
  | cons p l ih =>
    rcases p with ⟨k0, v0⟩
    rw [setType]
    by_cases hk : k0 = k
    · simp only [hk, beq_self_eq_true, if_true]
      rw [setType]
      simp [setType]
    · have hbeq : (k0 == k) = false := by simp [hk]
      rw [hbeq]
      simp only [Bool.false_eq_true, if_false]
      rw [setType, setType, hbeq]
      simp only [Bool.false_eq_true, if_false]
      rw [ih]

theorem TypeListInv_setType_push (st : ParserState) (k : String) (updated : DeveloperType)
    (hname : updated.m_name = k)
    (hinv : TypeListInv st)
    (hk : k = EDL_ANONYMOUS_ENUM_KEYWORD ∨ List.lookup k st.m_developer_types = none) :
    TypeListInv { st with
      m_developer_types := setType st.m_developer_types k updated
      m_developer_types_insertion_order_list :=
        st.m_developer_types_insertion_order_list ++ [updated] } := by
  have hmemiff := TypeListInv_mem_iff hinv
  obtain ⟨hnm, hcount, hmem, hkeys⟩ := hinv
  have horder : orderNames { st with
      m_developer_types := setType st.m_developer_types k updated
      m_developer_types_insertion_order_list :=
        st.m_developer_types_insertion_order_list ++ [updated] } =
      orderNames st ++ [k] := by
    simp [orderNames, hname]
  refine ⟨?_, ?_, ?_, ?_⟩
  · intro p hp
    rcases mem_setType k updated hp with hp | hp
    · simp [hp, hname]
    · exact hnm p hp
  · intro n hn
    rw [horder, List.count_append, lookup_setType, hcount n hn]
    by_cases hnk : n = k
    · subst hnk
      rcases hk with hk | hk
      · exact absurd hk hn
      · rw [hk]
        simp
    · rw [if_neg hnk]
      simp [hnk, List.count_cons]
  · rw [horder, lookup_setType]
    by_cases hks : EDL_ANONYMOUS_ENUM_KEYWORD = k
    · simp [hks]
    · simp only [if_neg hks]
      rw [← hmem]
      simp [hks]
  · show (setType st.m_developer_types k updated).map Prod.fst = _
    rw [horder]
    cases hsome : (List.lookup k st.m_developer_types).isSome
    · have hnotmemord : k ∉ orderNames st := by
        intro hm
        have hx := (hmemiff k).mp hm
        rw [hsome] at hx
        exact absurd hx (by simp)
      have hnotmemkeys : k ∉ st.m_developer_types.map Prod.fst := by
        intro hm
        have hx := lookup_isSome_of_mem_keys hm
        rw [hsome] at hx
        exact absurd hx (by simp)
      rw [dedupFirst_append_not_mem k (orderNames st) [] (List.not_mem_nil _) hnotmemord,
        setType_append_of_not_mem k updated _ hnotmemkeys, List.map_append, hkeys]
      rfl
    · have hmemord : k ∈ orderNames st := (hmemiff k).mpr hsome
      have hmemkeys : k ∈ st.m_developer_types.map Prod.fst := by
        obtain ⟨v, hv⟩ := Option.isSome_iff_exists.mp hsome
        exact slookup_mem_keys hv
      rw [dedupFirst_append_mem k (orderNames st) [] (Or.inr hmemord),
        keys_setType_of_mem k updated _ hmemkeys]
      exact hkeys

theorem ParseStruct_inv (st : ParserState) (ts : List Token) (fuel : Nat)
    (st2 : ParserState) (ts2 : List Token)
    (h : ParseStruct st ts fuel = .ok (st2, ts2)) :
    st2.m_trusted_functions_map = st.m_trusted_functions_map ∧
    st2.m_trusted_functions_list = st.m_trusted_functions_list ∧
    st2.m_untrusted_functions_map = st.m_untrusted_functions_map ∧
    st2.m_untrusted_functions_list = st.m_untrusted_functions_list ∧
    st2.m_abi_function_index = st.m_abi_function_index ∧
    (TypeListInv st → TypeListInv st2) := by
  unfold ParseStruct at h
  dsimp only at h
  split at h
  next => exact absurd h (by simp)
  next =>
    split at h
    next => exact absurd h (by simp)
    next =>
      split at h
      next => exact absurd h (by simp)
      next hdup =>
        split at h
        next => exact absurd h (by simp)
        next ts3 he1 =>
          split at h
          next => exact absurd h (by simp)
          next fields ts4 hf =>
            split at h
            next => exact absurd h (by simp)
            next ts5 he2 =>
              split at h
              next => exact absurd h (by simp)
              next ts6 he3 =>
                cases h
                refine ⟨rfl, rfl, rfl, rfl, rfl, ?_⟩
                intro hinv
                exact TypeListInv_add st _ (isSome_false_none hdup) hinv

end EdlProcessor

namespace EdlProcessor

theorem ParseEnum_inv (st : ParserState) (ts : List Token) (fuel : Nat)
    (st2 : ParserState) (ts2 : List Token)
    (h : ParseEnum st ts fuel = .ok (st2, ts2)) :
    st2.m_trusted_functions_map = st.m_trusted_functions_map ∧
    st2.m_trusted_functions_list = st.m_trusted_functions_list ∧
    st2.m_untrusted_functions_map = st.m_untrusted_functions_map ∧
    st2.m_untrusted_functions_list = st.m_untrusted_functions_list ∧
    st2.m_abi_function_index = st.m_abi_function_index ∧
    (TypeListInv st → TypeListInv st2) := by
  unfold ParseEnum at h
  dsimp only at h
  split at h
  next => exact absurd h (by simp)
  next tn stM tsM hsetup =>
    split at h
    next => exact absurd h (by simp)
    next items ts3 hitems =>
      split at h
      next => exact absurd h (by simp)
      next ts4 he1 =>
        split at h
        next => exact absurd h (by simp)
        next ts5 he2 =>
          cases h
          -- analyze the setup expression
          split at hsetup
          next hanon =>
            -- anonymous enum
            split at hsetup
            next hpres =>
              -- sentinel already present
              cases hsetup
              obtain ⟨t, hlt⟩ := Option.isSome_iff_exists.mp hpres
              rw [hlt]
              refine ⟨rfl, rfl, rfl, rfl, rfl, ?_⟩
              intro hinv
              have hname : ({ t with m_items := items } : DeveloperType).m_name =
                  EDL_ANONYMOUS_ENUM_KEYWORD := by
                have := hinv.1 _ (slookup_mem_pair hlt)
                simpa using this
              exact TypeListInv_setType_push st EDL_ANONYMOUS_ENUM_KEYWORD _ hname hinv
                (Or.inl rfl)
            next hpres =>
              -- sentinel absent: the map first gains a fresh anonymous-enum entry
              cases hsetup
              rw [lookup_setType, if_pos rfl]
              refine ⟨rfl, rfl, rfl, rfl, rfl, ?_⟩
              intro hinv
              have hcollapse :
                  setType (setType st.m_developer_types EDL_ANONYMOUS_ENUM_KEYWORD
                      { m_name := EDL_ANONYMOUS_ENUM_KEYWORD, m_type_kind := .AnonymousEnum })
                    EDL_ANONYMOUS_ENUM_KEYWORD
                    { m_name := EDL_ANONYMOUS_ENUM_KEYWORD, m_type_kind := .AnonymousEnum,
                      m_items := items } =
                  setType st.m_developer_types EDL_ANONYMOUS_ENUM_KEYWORD
                    { m_name := EDL_ANONYMOUS_ENUM_KEYWORD, m_type_kind := .AnonymousEnum,
                      m_items := items } := setType_setType _ _ _ _
              show TypeListInv { st with
                m_developer_types := setType (setType st.m_developer_types _ _) _ _
                m_developer_types_insertion_order_list :=
                  st.m_developer_types_insertion_order_list ++ [_] }
              rw [hcollapse]
              exact TypeListInv_setType_push st EDL_ANONYMOUS_ENUM_KEYWORD _ rfl hinv
                (Or.inl rfl)
          next hanon =>
            -- named enum
            split at hsetup
            next => exact absurd hsetup (by simp)
            next =>
              split at hsetup
              next => exact absurd hsetup (by simp)
              next =>
                split at hsetup
                next => exact absurd hsetup (by simp)
                next hdup =>
                  cases hsetup
                  rw [lookup_setType, if_pos rfl]
                  refine ⟨rfl, rfl, rfl, rfl, rfl, ?_⟩
                  intro hinv
                  have hcollapse := setType_setType ((getTok ts).1.text)
                    ({ m_name := (getTok ts).1.text, m_type_kind := .Enum } : DeveloperType)
                    ({ m_name := (getTok ts).1.text, m_type_kind := .Enum,
                       m_items := items } : DeveloperType) st.m_developer_types
                  show TypeListInv { st with
                    m_developer_types := setType (setType st.m_developer_types _ _) _ _
                    m_developer_types_insertion_order_list :=
                      st.m_developer_types_insertion_order_list ++ [_] }
                  rw [hcollapse]
                  exact TypeListInv_setType_push st ((getTok ts).1.text) _ rfl hinv
                    (Or.inr (isSome_false_none hdup))

end EdlProcessor

namespace EdlProcessor

theorem ParseStruct_order (st : ParserState) (ts : List Token) (fuel : Nat)
    (st2 : ParserState) (ts2 : List Token)
    (h : ParseStruct st ts fuel = .ok (st2, ts2)) :
    ∃ T, st2.m_developer_types_insertion_order_list =
        st.m_developer_types_insertion_order_list ++ [T] ∧
      T.m_name = (getTok ts).1.text ∧ T.m_type_kind = EdlTypeKind.Struct := by
  unfold ParseStruct at h
  dsimp only at h
  split at h
  next => exact absurd h (by simp)
  next =>
    split at h
    next => exact absurd h (by simp)
    next =>
      split at h
      next => exact absurd h (by simp)
      next hdup =>
        split at h
        next => exact absurd h (by simp)
        next ts3 he1 =>
          split at h
          next => exact absurd h (by simp)
          next fields ts4 hf =>
            split at h
            next => exact absurd h (by simp)
            next ts5 he2 =>
              split at h
              next => exact absurd h (by simp)
              next ts6 he3 =>
                cases h
                exact ⟨_, rfl, rfl, rfl⟩

end EdlProcessor

namespace EdlProcessor

theorem ParseEnum_order (st : ParserState) (ts : List Token) (fuel : Nat)
    (st2 : ParserState) (ts2 : List Token)
    (hnm : ∀ p ∈ st.m_developer_types, p.2.m_name = p.1)
    (h : ParseEnum st ts fuel = .ok (st2, ts2)) :
    ∃ T, st2.m_developer_types_insertion_order_list =
        st.m_developer_types_insertion_order_list ++ [T] ∧
      T.m_name = (if (getTok ts).1.text == "\x7b" then EDL_ANONYMOUS_ENUM_KEYWORD
        else (getTok ts).1.text) := by
  unfold ParseEnum at h
  dsimp only at h
  split at h
  next => exact absurd h (by simp)
  next tn stM tsM hsetup =>
    split at h
    next => exact absurd h (by simp)
    next items ts3 hitems =>
      split at h
      next => exact absurd h (by simp)
      next ts4 he1 =>
        split at h
        next => exact absurd h (by simp)
        next ts5 he2 =>
          cases h
          split at hsetup
          next hanon =>
            split at hsetup
            next hpres =>
              cases hsetup
              obtain ⟨t, hlt⟩ := Option.isSome_iff_exists.mp hpres
              rw [hlt]
              refine ⟨_, rfl, ?_⟩
              have hname : ({ t with m_items := items } : DeveloperType).m_name =
                  EDL_ANONYMOUS_ENUM_KEYWORD := by
                have hx := hnm (EDL_ANONYMOUS_ENUM_KEYWORD, t) (slookup_mem_pair hlt)
                simpa using hx
              rw [if_pos hanon]
              exact hname
            next hpres =>
              cases hsetup
              rw [lookup_setType, if_pos rfl]
              refine ⟨_, rfl, ?_⟩
              rw [if_pos hanon]
          next hanon =>
            split at hsetup
            next => exact absurd hsetup (by simp)
            next =>
              split at hsetup
              next => exact absurd hsetup (by simp)
              next =>
                split at hsetup
                next => exact absurd hsetup (by simp)
                next hdup =>
                  cases hsetup
                  rw [lookup_setType, if_pos rfl]
                  refine ⟨_, rfl, ?_⟩
                  rw [if_neg hanon]

end EdlProcessor

namespace EdlProcessor

theorem AbiInv_push (st st2 : ParserState) (f2 : Function)
    (hf : f2.abi_m_name = f2.m_name ++ "_" ++ Nat.repr st.m_abi_function_index)
    (hidx : st2.m_abi_function_index = st.m_abi_function_index + 1)
    (hlists : (st2.m_trusted_functions_list = st.m_trusted_functions_list ++ [f2] ∧
               st2.m_untrusted_functions_list = st.m_untrusted_functions_list) ∨
              (st2.m_trusted_functions_list = st.m_trusted_functions_list ∧
               st2.m_untrusted_functions_list = st.m_untrusted_functions_list ++ [f2]))
    (h : AbiInv st) : AbiInv st2 := by
  obtain ⟨hfmt, hperm⟩ := h
  constructor
  · intro f hfmem
    unfold allFunctions at hfmem
    rcases hlists with ⟨h1, h2⟩ | ⟨h1, h2⟩ <;> rw [h1, h2] at hfmem
    · rcases List.mem_append.mp hfmem with hm | hm
      · rcases List.mem_append.mp hm with hm | hm
        · exact hfmt f (List.mem_append_left _ hm)
        · simp at hm
          subst hm
          exact ⟨st.m_abi_function_index, hf⟩
      · exact hfmt f (List.mem_append_right _ hm)
    · rcases List.mem_append.mp hfmem with hm | hm
      · exact hfmt f (List.mem_append_left _ hm)
      · rcases List.mem_append.mp hm with hm | hm
        · exact hfmt f (List.mem_append_right _ hm)
        · simp at hm
          subst hm
          exact ⟨st.m_abi_function_index, hf⟩
  · have hx : abiSuffix f2.abi_m_name = Nat.repr st.m_abi_function_index := by
      rw [hf, abiSuffix_spec]
    have hr : (List.range st2.m_abi_function_index).map Nat.repr =
        (List.range st.m_abi_function_index).map Nat.repr ++
          [Nat.repr st.m_abi_function_index] := by
      rw [hidx, List.range_succ]
      simp
    rcases hlists with ⟨h1, h2⟩ | ⟨h1, h2⟩
    · unfold allFunctions
      rw [h1, h2, hr]
      have hstep : ((st.m_trusted_functions_list ++ [f2]) ++
            st.m_untrusted_functions_list).map (fun f => abiSuffix f.abi_m_name) =
          (st.m_trusted_functions_list.map (fun f => abiSuffix f.abi_m_name) ++
            [abiSuffix f2.abi_m_name]) ++
            st.m_untrusted_functions_list.map (fun f => abiSuffix f.abi_m_name) := by
        simp
      rw [hstep, hx]
      have hp1 : List.Perm
          ((st.m_trusted_functions_list.map (fun f => abiSuffix f.abi_m_name) ++
            [Nat.repr st.m_abi_function_index]) ++
            st.m_untrusted_functions_list.map (fun f => abiSuffix f.abi_m_name))
          ((st.m_trusted_functions_list.map (fun f => abiSuffix f.abi_m_name) ++
            st.m_untrusted_functions_list.map (fun f => abiSuffix f.abi_m_name)) ++
            [Nat.repr st.m_abi_function_index]) := by
        rw [List.append_assoc, List.append_assoc]
        exact List.Perm.append_left _ (List.perm_append_comm)
      refine hp1.trans ?_
      refine List.Perm.append ?_ (List.Perm.refl _)
      unfold allFunctions at hperm
      simpa using hperm
    · unfold allFunctions
      rw [h1, h2, hr]
      have hstep : (st.m_trusted_functions_list ++
            (st.m_untrusted_functions_list ++ [f2])).map (fun f => abiSuffix f.abi_m_name) =
          (st.m_trusted_functions_list.map (fun f => abiSuffix f.abi_m_name) ++
            st.m_untrusted_functions_list.map (fun f => abiSuffix f.abi_m_name)) ++
            [abiSuffix f2.abi_m_name] := by
        simp
      rw [hstep, hx]
      refine List.Perm.append ?_ (List.Perm.refl _)
      unfold allFunctions at hperm
      simpa using hperm

theorem parseFunctionsLoop_inv (kind : FunctionKind) :
    ∀ (fuel : Nat) (st : ParserState) (ts : List Token) (st2 : ParserState) (ts2 : List Token),
      parseFunctionsLoop kind st ts fuel = .ok (st2, ts2) →
      st2.m_developer_types = st.m_developer_types ∧
      st2.m_developer_types_insertion_order_list =
        st.m_developer_types_insertion_order_list ∧
      (AbiInv st → AbiInv st2) := by
  intro fuel
  induction fuel with
  | zero => intro st ts st2 ts2 h; exact absurd h (by simp [parseFunctionsLoop])
  | succ fuel ih =>
    intro st ts st2 ts2 h
    rw [parseFunctionsLoop] at h
    split at h
    · cases h
      exact ⟨rfl, rfl, id⟩
    · split at h
      next => exact absurd h (by simp)
      next pf tsA hpf =>
        dsimp only at h
        split at h
        next hkind =>
          split at h
          next => exact absurd h (by simp)
          next hdup =>
            obtain ⟨e1, e2, himp⟩ := ih _ _ _ _ h
            refine ⟨e1, e2, ?_⟩
            intro hinv
            exact himp (AbiInv_push st _ _ rfl rfl (Or.inr ⟨rfl, rfl⟩) hinv)
        next hkind =>
          split at h
          next => exact absurd h (by simp)
          next hdup =>
            obtain ⟨e1, e2, himp⟩ := ih _ _ _ _ h
            refine ⟨e1, e2, ?_⟩
            intro hinv
            exact himp (AbiInv_push st _ _ rfl rfl (Or.inl ⟨rfl, rfl⟩) hinv)

theorem ParseFunctions_inv (kind : FunctionKind) (st : ParserState) (ts : List Token)
    (fuel : Nat) (st2 : ParserState) (ts2 : List Token)
    (h : ParseFunctions kind st ts fuel = .ok (st2, ts2)) :
    st2.m_developer_types = st.m_developer_types ∧
    st2.m_developer_types_insertion_order_list =
      st.m_developer_types_insertion_order_list ∧
    (AbiInv st → AbiInv st2) := by
  unfold ParseFunctions at h
  split at h
  next => exact absurd h (by simp)
  next tsA he1 =>
    split at h
    next => exact absurd h (by simp)
    next stB tsB hloop =>
      split at h
      next => exact absurd h (by simp)
      next tsC he2 =>
        split at h
        next => exact absurd h (by simp)
        next tsD he3 =>
          cases h
          exact parseFunctionsLoop_inv kind _ _ _ _ _ hloop

end EdlProcessor

namespace EdlProcessor

theorem TypeListInv_congr {st st2 : ParserState}
    (h1 : st2.m_developer_types = st.m_developer_types)
    (h2 : st2.m_developer_types_insertion_order_list =
      st.m_developer_types_insertion_order_list)
    (h : TypeListInv st) : TypeListInv st2 := by
  unfold TypeListInv orderNames at h ⊢
  rw [h1, h2]
  exact h

theorem StInv_init : StInv ({}) := by
  refine ⟨⟨?_, ?_, ?_, ?_⟩, ?_, ?_⟩
  · intro p hp
    simp [ParserState.m_developer_types] at hp
  · intro n hn
    simp [orderNames]
  · simp [orderNames]
  · rfl
  · intro f hf
    simp [allFunctions] at hf
  · simp [allFunctions]

theorem parseBodyLoop_inv :
    ∀ (fuel : Nat) (st : ParserState) (ts : List Token) (st2 : ParserState) (ts2 : List Token),
      parseBodyLoop st ts fuel = .ok (st2, ts2) → StInv st → StInv st2 := by
  intro fuel
  induction fuel with
  | zero => intro st ts st2 ts2 h; exact absurd h (by simp [parseBodyLoop])
  | succ fuel ih =>
    intro st ts st2 ts2 h hinv
    rw [parseBodyLoop] at h
    split at h
    · cases h
      exact hinv
    · dsimp only at h
      split at h
      · -- trusted
        split at h
        next => exact absurd h (by simp)
        next stA tsA hPF =>
          obtain ⟨e1, e2, himp⟩ := ParseFunctions_inv _ _ _ _ _ _ hPF
          exact ih _ _ _ _ h ⟨TypeListInv_congr e1 e2 hinv.1, himp hinv.2⟩
      · split at h
        · -- untrusted
          split at h
          next => exact absurd h (by simp)
          next stA tsA hPF =>
            obtain ⟨e1, e2, himp⟩ := ParseFunctions_inv _ _ _ _ _ _ hPF
            exact ih _ _ _ _ h ⟨TypeListInv_congr e1 e2 hinv.1, himp hinv.2⟩
        · split at h
          · -- enum
            split at h
            next => exact absurd h (by simp)
            next stA tsA hPE =>
              obtain ⟨e1, e2, e3, e4, e5, himp⟩ := ParseEnum_inv _ _ _ _ _ hPE
              exact ih _ _ _ _ h ⟨himp hinv.1, AbiInv_congr e2 e4 e5 hinv.2⟩
          · split at h
            · -- struct
              split at h
              next => exact absurd h (by simp)
              next stA tsA hPS =>
                obtain ⟨e1, e2, e3, e4, e5, himp⟩ := ParseStruct_inv _ _ _ _ _ hPS
                exact ih _ _ _ _ h ⟨himp hinv.1, AbiInv_congr e2 e4 e5 hinv.2⟩
            · exact absurd h (by simp)

theorem Parse_ok_decompose (perm : List String → List String) (nm : String)
    (ts : List Token) (fuel : Nat) (edl : Edl) (h : Parse perm nm ts fuel = .ok edl) :
    ∃ tsB st2 ts3, parseBodyLoop ({}) tsB fuel = .ok (st2, ts3) ∧
      FinishBody perm nm st2 = .ok edl := by
  unfold Parse at h
  split at h
  next => exact absurd h (by simp)
  next tsA h1 =>
    split at h
    next => exact absurd h (by simp)
    next tsB h2 =>
      split at h
      next => exact absurd h (by simp)
      next edl2 ts3 h3 =>
        split at h
        next => exact absurd h (by simp)
        next ts4 h4 =>
          cases h
          unfold ParseBody at h3
          split at h3
          next => exact absurd h3 (by simp)
          next stX ts5 h5 =>
            split at h3
            next => exact absurd h3 (by simp)
            next edl3 h6 =>
              cases h3
              exact ⟨tsB, stX, _, h5, h6⟩

theorem FinishBody_map (perm : List String → List String) (nm : String)
    (st : ParserState) (edl : Edl) (h : FinishBody perm nm st = .ok edl) :
    edl.m_developer_types =
      UpdateDeveloperTypeMetadata (perm (st.m_developer_types.map Prod.fst))
        st.m_developer_types := by
  unfold FinishBody at h
  split at h
  · exact absurd h (by simp)
  · injection h with h
    subst h
    rfl

theorem update_lookup_isSome (visit : List String) :
    ∀ (l : List (String × DeveloperType)) (n : String),
      (List.lookup n (UpdateDeveloperTypeMetadata visit l)).isSome =
        (List.lookup n l).isSome := by
  induction visit with
  | nil => intro l n; rfl
  | cons k visit ih =>
    intro l n
    show (List.lookup n (UpdateDeveloperTypeMetadata visit
      (updateOneDeveloperType l k))).isSome = _
    rw [ih]
    unfold updateOneDeveloperType
    split
    · rfl
    next t hl =>
      dsimp only
      rw [lookup_setType]
      by_cases hn : n = k
      · subst hn
        rw [if_pos rfl, hl]
        rfl
      · rw [if_neg hn]

theorem update_keys (visit : List String) :
    ∀ (l : List (String × DeveloperType)),
      (UpdateDeveloperTypeMetadata visit l).map Prod.fst = l.map Prod.fst := by
  induction visit with
  | nil => intro l; rfl
  | cons k visit ih =>
    intro l
    show (UpdateDeveloperTypeMetadata visit (updateOneDeveloperType l k)).map Prod.fst = _
    rw [ih]
    unfold updateOneDeveloperType
    split
    · rfl
    next t hl =>
      dsimp only
      exact keys_setType_of_mem k _ l (slookup_mem_keys hl)

theorem FinishBody_order (perm : List String → List String) (nm : String)
    (st : ParserState) (edl : Edl) (h : FinishBody perm nm st = .ok edl) :
    edl.m_developer_types_insertion_order_list =
      st.m_developer_types_insertion_order_list := by
  unfold FinishBody at h
  split at h
  · exact absurd h (by simp)
  · injection h with h
    subst h
    rfl

end EdlProcessor

namespace EdlProcessor

/-! #### C2: the insertion-order list against the developer-type map -/

/-- C2 (amended): `developer_types_order` holds one entry per type block, appended at
the end of the list as the block is parsed, so the entries stand in first-seen source
order — `ParseStruct` appends exactly one entry labelled with the struct's name, and
`ParseEnum` appends exactly one entry labelled with the enum's name, the anonymous-enum
sentinel exactly when the block is anonymous (hence once per anonymous block, the first
occurrence at the first block).  Globally, for every successful parse, each name other
than the sentinel occurs in the list exactly once iff it is a key of `developer_types`
(zero times otherwise), the sentinel occurs iff the anonymous enum exists (more than
once with two or more anonymous blocks; see the counterexample), and the map's key
sequence — its insertion order, since `setType` / `AddDeveloperType` append fresh keys
at the end — equals the sequence of first occurrences of the order list. -/
theorem C2_amended_order_list :
    (∀ (st : ParserState) (ts : List Token) (fuel : Nat) (st2 : ParserState)
        (ts2 : List Token), ParseStruct st ts fuel = .ok (st2, ts2) →
      ∃ T, st2.m_developer_types_insertion_order_list =
          st.m_developer_types_insertion_order_list ++ [T] ∧
        T.m_name = (getTok ts).1.text ∧ T.m_type_kind = EdlTypeKind.Struct) ∧
    (∀ (st : ParserState) (ts : List Token) (fuel : Nat) (st2 : ParserState)
        (ts2 : List Token), (∀ p ∈ st.m_developer_types, p.2.m_name = p.1) →
      ParseEnum st ts fuel = .ok (st2, ts2) →
      ∃ T, st2.m_developer_types_insertion_order_list =
          st.m_developer_types_insertion_order_list ++ [T] ∧
        T.m_name = (if (getTok ts).1.text == "\x7b" then EDL_ANONYMOUS_ENUM_KEYWORD
          else (getTok ts).1.text)) ∧
    (∀ (perm : List String → List String) (nm : String) (ts : List Token) (fuel : Nat)
        (edl : Edl), Parse perm nm ts fuel = .ok edl →
      (∀ n, n ≠ EDL_ANONYMOUS_ENUM_KEYWORD →
        (edl.m_developer_types_insertion_order_list.map (fun t => t.m_name)).count n =
          (if (List.lookup n edl.m_developer_types).isSome then 1 else 0)) ∧
      (EDL_ANONYMOUS_ENUM_KEYWORD ∈
          edl.m_developer_types_insertion_order_list.map (fun t => t.m_name) ↔
        (List.lookup EDL_ANONYMOUS_ENUM_KEYWORD edl.m_developer_types).isSome) ∧
      edl.m_developer_types.map Prod.fst =
        dedupFirst [] (edl.m_developer_types_insertion_order_list.map
          (fun t => t.m_name))) := by
  refine ⟨ParseStruct_order, ParseEnum_order, ?_⟩
  intro perm nm ts fuel edl h
  obtain ⟨tsB, st2, ts3, hloop, hfin⟩ := Parse_ok_decompose perm nm ts fuel edl h
  have hinv := parseBodyLoop_inv fuel ({}) tsB st2 ts3 hloop StInv_init
  obtain ⟨hnm, hcount, hmem, hkeys⟩ := hinv.1
  have horder := FinishBody_order perm nm st2 edl hfin
  have hmap := FinishBody_map perm nm st2 edl hfin
  have hsome : ∀ n, (List.lookup n edl.m_developer_types).isSome =
      (List.lookup n st2.m_developer_types).isSome := by
    intro n
    rw [hmap, update_lookup_isSome]
  refine ⟨?_, ?_, ?_⟩
  · intro n hn
    rw [horder, hsome n]
    exact hcount n hn
  · rw [horder, hsome _]
    exact hmem
  · rw [hmap, update_keys, horder]
    exact hkeys

/-! #### C3: ABI name assignment -/

/-- C3: for every successful parse, the ABI names across both banks are pairwise
distinct; each has the form `name ++ "_" ++ i`; and the multiset of counter values read
back from the names is exactly `{0, …, total-1}` where `total` is the number of
functions of both banks — i.e. one shared counter starting at 0, incremented once per
function in parse order. -/
theorem C3_abi_names_unique (perm : List String → List String) (nm : String)
    (ts : List Token) (fuel : Nat) (edl : Edl)
    (h : Parse perm nm ts fuel = .ok edl) :
    ((edl.m_trusted_functions_list ++ edl.m_untrusted_functions_list).map
      (fun f => f.abi_m_name)).Nodup ∧
    (∀ f ∈ edl.m_trusted_functions_list ++ edl.m_untrusted_functions_list,
      ∃ i, f.abi_m_name = f.m_name ++ "_" ++ Nat.repr i) ∧
    List.Perm
      ((edl.m_trusted_functions_list ++ edl.m_untrusted_functions_list).map
        (fun f => abiSuffix f.abi_m_name))
      ((List.range (edl.m_trusted_functions_list.length +
          edl.m_untrusted_functions_list.length)).map Nat.repr) := by
  obtain ⟨tsB, st2, ts3, hloop, hfin⟩ := Parse_ok_decompose perm nm ts fuel edl h
  have hinv := parseBodyLoop_inv fuel ({}) tsB st2 ts3 hloop StInv_init
  obtain ⟨hfmt, hperm⟩ := hinv.2
  obtain ⟨_, _, htl, _, hul⟩ := C10_final_passes_only_touch_map perm nm st2 edl hfin
  rw [htl, hul]
  have hlen : st2.m_trusted_functions_list.length +
      st2.m_untrusted_functions_list.length = st2.m_abi_function_index := by
    have hx := hperm.length_eq
    simpa [allFunctions] using hx
  have hnodup2 : ((allFunctions st2).map (fun f => abiSuffix f.abi_m_name)).Nodup := by
    refine (List.Perm.nodup_iff hperm).mpr ?_
    refine List.Nodup.map ?_ (List.nodup_range _)
    intro a b hab
    exact repr_inj hab
  refine ⟨?_, ?_, ?_⟩
  · have hmm : (allFunctions st2).map (fun f => abiSuffix f.abi_m_name) =
        ((allFunctions st2).map (fun f => f.abi_m_name)).map abiSuffix := by
      rw [List.map_map]
      rfl
    rw [hmm] at hnodup2
    exact List.Nodup.of_map _ hnodup2
  · exact hfmt
  · rw [hlen]
    exact hperm

end EdlProcessor

namespace EdlProcessor

/-- C2 witness: the amended theorem applied to concrete inputs — `ParseStruct` on
`struct S { uint8_t x; };` appends the one entry `S`; `ParseEnum` on an anonymous
`enum { A };` block appends the one sentinel entry; and the parse of `c2bTokens`
(struct `S`, an anonymous block, enum `E`, a second anonymous block) yields the order
list `[S, __anonymous_enum__, E, __anonymous_enum__]` whose counts, sentinel membership
and first-occurrence sequence (the map keys `[S, __anonymous_enum__, E]`) instantiate
the global clauses. -/
theorem C2_amended_order_list_witness :
    (∃ T, c2bStructState.m_developer_types_insertion_order_list =
        ({} : ParserState).m_developer_types_insertion_order_list ++ [T] ∧
      T.m_name = (getTok c2bStructTokens).1.text ∧ T.m_type_kind = EdlTypeKind.Struct) ∧
    (∃ T, c2bEnumState.m_developer_types_insertion_order_list =
        ({} : ParserState).m_developer_types_insertion_order_list ++ [T] ∧
      T.m_name = (if (getTok c2bEnumTokens).1.text == "\x7b" then EDL_ANONYMOUS_ENUM_KEYWORD
        else (getTok c2bEnumTokens).1.text)) ∧
    ((∀ n, n ≠ EDL_ANONYMOUS_ENUM_KEYWORD →
      (c2bEdl.m_developer_types_insertion_order_list.map (fun t => t.m_name)).count n =
        (if (List.lookup n c2bEdl.m_developer_types).isSome then 1 else 0)) ∧
    (EDL_ANONYMOUS_ENUM_KEYWORD ∈
        c2bEdl.m_developer_types_insertion_order_list.map (fun t => t.m_name) ↔
      (List.lookup EDL_ANONYMOUS_ENUM_KEYWORD c2bEdl.m_developer_types).isSome) ∧
    c2bEdl.m_developer_types.map Prod.fst =
      dedupFirst [] (c2bEdl.m_developer_types_insertion_order_list.map
        (fun t => t.m_name))) :=
  ⟨C2_amended_order_list.1 ({}) c2bStructTokens 50 c2bStructState [] (by rfl),
   C2_amended_order_list.2.1 ({}) c2bEnumTokens 50 c2bEnumState []
     (by intro p hp; simp [ParserState.m_developer_types] at hp) (by rfl),
   C2_amended_order_list.2.2 id "m" c2bTokens 100 c2bEdl (by rfl)⟩

/-- C2 counterexample: with two anonymous `enum` blocks, `Parse` succeeds but the
anonymous-enum type appears twice in `developer_types_order` while `developer_types` has
a single key — refuting "lists each developer type exactly once … including when the
module contains two or more anonymous enum blocks". -/
theorem C2_counterexample :
    (Parse id "m" c2Tokens 100).toOption.map
        (fun edl =>
          (edl.m_developer_types_insertion_order_list.map (fun t => t.m_name),
           edl.m_developer_types.map Prod.fst)) =
      some ([EDL_ANONYMOUS_ENUM_KEYWORD, EDL_ANONYMOUS_ENUM_KEYWORD],
            [EDL_ANONYMOUS_ENUM_KEYWORD]) ∧
    (Parse id "m" c2Tokens 100).toOption.map
        (fun edl =>
          (edl.m_developer_types_insertion_order_list.map (fun t => t.m_name)).count
              EDL_ANONYMOUS_ENUM_KEYWORD == 1) = some false :=
  ⟨rfl, rfl⟩

/-- C3 witness: the theorem applied to a module with a trusted `F` and an untrusted `G`:
ABI names `F_0` and `G_1` are distinct, well-formed, and their counter values are a
permutation of `{0, 1}`. -/
theorem C3_abi_names_unique_witness :
    ((c3WitnessEdl.m_trusted_functions_list ++ c3WitnessEdl.m_untrusted_functions_list).map
      (fun f => f.abi_m_name)).Nodup ∧
    (∀ f ∈ c3WitnessEdl.m_trusted_functions_list ++ c3WitnessEdl.m_untrusted_functions_list,
      ∃ i, f.abi_m_name = f.m_name ++ "_" ++ Nat.repr i) ∧
    List.Perm
      ((c3WitnessEdl.m_trusted_functions_list ++
          c3WitnessEdl.m_untrusted_functions_list).map (fun f => abiSuffix f.abi_m_name))
      ((List.range (c3WitnessEdl.m_trusted_functions_list.length +
          c3WitnessEdl.m_untrusted_functions_list.length)).map Nat.repr) :=
  C3_abi_names_unique id "m" c3Tokens 100 c3WitnessEdl (by rfl)

end EdlProcessor
